import Mathlib

/-!
# Langton's ant: a shallow embedding of `point.c`, `ant.c`, `grid.c` and the
control loop of `langtons_ant.c`

Conventions of the embedding.

* A C `int` is an unbounded `Int`.  Signed overflow is undefined in C, and every
  `int` the simulation engine computes stays tiny (positions in `[-1, 201]`,
  directions with entries in `{-1, 0, 1}`), so the model is exact on every
  execution in which no signed overflow occurs.  C `/` and `%` on `int` are
  `Int.tdiv` and `Int.tmod` (truncation toward zero).
* `unsigned int step_count` is a `Nat` below `2 ^ 32`; its increment is written
  with an explicit `% 2 ^ 32`.
* A C string is the `List Char` of its characters before the terminating NUL.
* A function that mutates its argument through a pointer returns the new value.
* An access `grid[y][x]` outside the `201 x 201` array is undefined in C; the
  model makes it `none`, so that a result `some _` certifies that every array
  access of the run was inside the array.
* Drawing calls of ncurses have no effect on the modelled state and are left
  out; `render_ant` keeps only its assignment to `screen_pos`.
-/

namespace LangtonsAnt

/-! ## point.h / point.c -/

/-- Lattice point of `point.h`: `typedef struct { int y, x; } point;`. -/
structure point where
  y : Int
  x : Int
deriving DecidableEq, Repr

/-- Componentwise sum, `point.c:add_points`. -/
def add_points (p q : point) : point :=
  { y := p.y + q.y, x := p.x + q.x }

/-- Assign both coordinates, `point.c:set_point`; the result is the new `*p`. -/
def set_point (p : point) (y x : Int) : point :=
  { p with y := y, x := x }

/-! ## ant.h / ant.c -/

/-- The ant of `ant.h`: grid position, direction and last drawn screen position. -/
structure ant where
  pos : point
  dir : point
  screen_pos : point
deriving DecidableEq, Repr

/-- Number of grid rows, `grid.h`. -/
def GRID_SIZE_Y : Int := 201

/-- Number of grid columns, `grid.h`. -/
def GRID_SIZE_X : Int := 201

/-- Largest number of colours, `grid.h`. -/
def MAX_COLORS : Nat := 16

/-- The C library `toupper` in the C locale: `a..z` go to `A..Z`, every other
character is returned as it is. -/
def toupper (c : Char) : Char :=
  if 97 ≤ c.toNat ∧ c.toNat ≤ 122 then Char.ofNat (c.toNat - 32) else c

/-- The C library `strlen`, as an `int`. -/
def strlen (s : List Char) : Int := (s.length : Int)

/-- The NUL character that terminates a C string. -/
def NUL : Char := Char.ofNat 0

/-- Body of the `switch (toupper(pattern[i]))` of `ant.c:rotate_ant`, for the
pattern character `c`; a character with no `case` falls out of the switch. -/
def rotate_switch (a : ant) (c : Char) : ant :=
  if toupper c = 'R' then
    { a with dir := set_point a.dir a.dir.x (a.dir.y * -1) }
  else if toupper c = 'L' then
    { a with dir := set_point a.dir (a.dir.x * -1) a.dir.y }
  else if toupper c = 'U' then
    { a with dir := set_point a.dir (a.dir.y * -1) (a.dir.x * -1) }
  else if toupper c = 'N' then
    a
  else
    a

/-- The `for (int i = 0; i < strlen(pattern); i++)` loop of `ant.c:rotate_ant`
entered at index `i`, the list being the characters `pattern[i], pattern[i+1], ...`
that are still ahead: at the first `i` with `tile_value == i` the switch runs and
the function returns; when the characters are exhausted the loop ends. -/
def rotate_ant_from (a : ant) (tile_value : Int) : List Char → Nat → ant
  | [], _ => a
  | c :: rest, i =>
    if tile_value = (i : Int) then rotate_switch a c
    else rotate_ant_from a tile_value rest (i + 1)

/-- Change the direction of the ant from the tile colour, `ant.c:rotate_ant`. -/
def rotate_ant (a : ant) (tile_value : Int) (pattern : List Char) : ant :=
  rotate_ant_from a tile_value pattern 0

/-- Set the initial direction from a token, `ant.c:set_ant_dir`. -/
def set_ant_dir (a : ant) (dir : Char) : ant :=
  if dir = NUL then
    a
  else if toupper dir = 'L' then
    { a with dir := set_point a.dir 0 (-1) }
  else if toupper dir = 'U' then
    { a with dir := set_point a.dir (-1) 0 }
  else if toupper dir = 'R' then
    { a with dir := set_point a.dir 0 1 }
  else if toupper dir = 'D' then
    { a with dir := set_point a.dir 1 0 }
  else
    a

/-- Move the grid offset so that the ant is drawn at the centre, `ant.c:center_ant`;
the result is the new `*grid_offset`. -/
def center_ant (a : ant) (row col : Int) (grid_offset : point) : point :=
  let center_p : point := { y := Int.tdiv row 2, x := Int.tdiv col 2 }
  { y := grid_offset.y + (center_p.y - a.screen_pos.y),
    x := grid_offset.x + (center_p.x - a.screen_pos.x) }

/-- The state effect of `ant.c:render_ant`: the screen cell the ant is drawn at is
stored in `screen_pos`. -/
def render_ant (a : ant) (row col : Int) (grid_offset : point) : ant :=
  let start_p : point :=
    { y := Int.tdiv (row - GRID_SIZE_Y) 2, x := Int.tdiv (col - GRID_SIZE_X * 2) 2 }
  let y := start_p.y + grid_offset.y + a.pos.y
  let x := start_p.x + grid_offset.x + a.pos.x * 2
  let x := if Int.tmod x 2 ≠ 0 then x + 1 else x
  { a with screen_pos := set_point a.screen_pos y x }

/-! ## grid.h / grid.c -/

/-- The array `int grid[GRID_SIZE_Y][GRID_SIZE_X]`, read as row then column.  Only
the entries with both indices inside the array are cells of the C object. -/
abbrev Grid := Int → Int → Int

/-- Both indices address an element of the `201 x 201` array. -/
def in_grid (y x : Int) : Prop :=
  0 ≤ y ∧ y < GRID_SIZE_Y ∧ 0 ≤ x ∧ x < GRID_SIZE_X

instance (y x : Int) : Decidable (in_grid y x) := by
  unfold in_grid; infer_instance

/-- The assignment `grid[y][x] = v` for indices inside the array. -/
def grid_set (grid : Grid) (y x v : Int) : Grid :=
  fun i j => if i = y ∧ j = x then v else grid i j

/-- The read `grid[y][x]`; undefined (`none`) outside the array. -/
def grid_read (grid : Grid) (y x : Int) : Option Int :=
  if in_grid y x then some (grid y x) else none

/-- The write `grid[y][x] = v`; undefined (`none`) outside the array. -/
def grid_write (grid : Grid) (y x v : Int) : Option Grid :=
  if in_grid y x then some (grid_set grid y x v) else none

/-- Advance the colour of one tile, `grid.c:change_tile`:
`grid[p->y][p->x] = (grid[p->y][p->x] + 1) % pattern_len`. -/
def change_tile (grid : Grid) (p : point) (pattern_len : Int) : Option Grid :=
  match grid_read grid p.y p.x with
  | none => none
  | some v => grid_write grid p.y p.x (Int.tmod (v + 1) pattern_len)

/-- The inner loop `for (j = 0; j < GRID_SIZE_X; j++) grid[i][j] = 0;` of
`grid.c:init_grid`. -/
def init_row (grid : Grid) (i : Nat) : Grid :=
  (List.range 201).foldl (fun (g : Grid) (j : Nat) => grid_set g (i : Int) (j : Int) 0) grid

/-- Give every tile the value 0, `grid.c:init_grid`. -/
def init_grid (grid : Grid) : Grid :=
  (List.range 201).foldl init_row grid

/-- One step of the automaton, `grid.c:update_grid`: read the tile under the ant,
rotate, move, then recolour the tile at the previous position.  The result is the
new grid and the new `*a`. -/
def update_grid (grid : Grid) (a : ant) (pattern : List Char) : Option (Grid × ant) :=
  let prev_pos := a.pos
  match grid_read grid a.pos.y a.pos.x with
  | none => none
  | some tile =>
    let a1 := rotate_ant a tile pattern
    let pos := add_points a1.pos a1.dir
    let a2 := { a1 with pos := set_point a1.pos pos.y pos.x }
    match change_tile grid prev_pos (strlen pattern) with
    | none => none
    | some grid1 => some (grid1, a2)

/-- Directions of `grid.h:enum offset_direction`. -/
inductive offset_direction where
  | LEFT
  | UP
  | RIGHT
  | DOWN
  | ZERO
deriving DecidableEq, Repr

/-- Pan the view, `grid.c:update_offset`; the result is the new `*grid_offset`. -/
def update_offset (grid_offset : point) (dir : offset_direction) : point :=
  match dir with
  | .LEFT => { grid_offset with x := grid_offset.x + 2 }
  | .UP => { grid_offset with y := grid_offset.y + 1 }
  | .RIGHT => { grid_offset with x := grid_offset.x - 2 }
  | .DOWN => { grid_offset with y := grid_offset.y - 1 }
  | .ZERO => set_point grid_offset 0 0

/-! ## langtons_ant.c: argument checks -/

/-- The test `strcmp(s, sv[i]) == 0` for some `i < n`, `langtons_ant.c:str_in_array`,
for an array `sv` of `n` strings. -/
def str_in_array (s : List Char) : List (List Char) → Bool
  | [] => false
  | t :: sv => if s = t then true else str_in_array s sv

/-- Upper-case a string in place, `langtons_ant.c:str_toupper`. -/
def str_toupper (s : List Char) : List Char :=
  s.map toupper

/-- The test on one pattern character in `main`: the `if` whose body prints
"Invalid pattern" is entered exactly when this is `false`. -/
def pattern_char_ok (c : Char) : Bool :=
  !(c ≠ 'R' && c ≠ 'r' && c ≠ 'L' && c ≠ 'l' && c ≠ 'U' && c ≠ 'u' && c ≠ 'N' && c ≠ 'n')

/-- The loop over the characters of the pattern argument in `main`: `false` at the
first character that makes `main` print "Invalid pattern" and return 1. -/
def pattern_chars_ok : List Char → Bool
  | [] => true
  | c :: rest => if pattern_char_ok c then pattern_chars_ok rest else false

/-- The pattern check of `main` on the argument `s`: `false` when `main` prints
"Invalid pattern" and returns 1, either for the length or for a character. -/
def check_pattern (s : List Char) : Bool :=
  if s.length < 2 ∨ s.length > MAX_COLORS then false
  else pattern_chars_ok s

/-- The array `valid_d` of `main`. -/
def valid_d : List (List Char) :=
  ["L".toList, "l".toList, "U".toList, "u".toList,
   "R".toList, "r".toList, "D".toList, "d".toList]

/-- The argument loop `for (int i = 1; i < argc; i++)` of `main`, entered with the
arguments `argv[i], argv[i+1], ...` still ahead and the current contents of the
buffers `dir` and `pattern`.  `Except.error n` is `return n` (exit status `n`);
`Except.ok` is the contents of the two buffers when the loop ends. -/
def parse_args_from : List (List Char) → List Char → List Char →
    Except Nat (List Char × List Char)
  | [], dir, pattern => .ok (dir, pattern)
  | arg :: rest, dir, pattern =>
    if arg = "-d".toList then
      if dir ≠ [] then .error 1
      else
        match rest with
        | [] => .error 1
        | d :: rest2 =>
          if !str_in_array d valid_d then .error 1
          else parse_args_from rest2 (str_toupper d) pattern
    else
      if pattern ≠ [] then .error 1
      else if !check_pattern arg then .error 1
      else parse_args_from rest dir (str_toupper arg)

/-- The argument handling of `main` up to the defaults.  `argv` is the whole
argument vector (program name first); `dir0` and `pattern0` are the contents the
local buffers `char dir[2]` and `char pattern[17]` have when `main` is entered (the
source does not initialise them).  `Except.error n` is `return n` before ncurses,
the grid and the ant are touched. -/
def parse_args (argv : List (List Char)) (dir0 pattern0 : List Char) :
    Except Nat (List Char × List Char) :=
  if argv.length > 4 then .error 1
  else if argv.length = 2 ∧
      (argv.tail = ["-h".toList] ∨ argv.tail = ["--help".toList]) then .error 0
  else
    match parse_args_from argv.tail dir0 pattern0 with
    | .error n => .error n
    | .ok (dir, pattern) =>
      let dir := if dir = [] then "L".toList else dir
      let pattern := if pattern = [] then "RL".toList else pattern
      .ok (dir, pattern)

/-! ## langtons_ant.c: the session -/

/-- Run states of `langtons_ant.c:enum game_state`. -/
inductive game_state where
  | RUNNING
  | PAUSED
  | GAME_OVER
deriving DecidableEq, Repr

/-- Largest `unsigned int`, `limits.h`. -/
def UINT_MAX : Nat := 4294967295

/-- What `getch()` returns in one iteration of the main loop: one of the ncurses key
codes the loop tests for, `ERR` when the half-delay expired without a key (a tick),
an ordinary character, or any other key code.  `KEY_RESIZE` carries the size that
`getmaxyx(stdscr, row, col)` then reports. -/
inductive Key where
  | KEY_RESIZE (row col : Int)
  | KEY_LEFT
  | KEY_UP
  | KEY_RIGHT
  | KEY_DOWN
  | ERR
  | chr (c : Char)
  | other (code : Nat)
deriving DecidableEq, Repr

/-- The variables of `main` that live across iterations of the main loop; `delay`
is the argument of the last `halfdelay` call. -/
structure Session where
  state : game_state
  row : Int
  col : Int
  step_count : Nat
  grid : Grid
  grid_offset : point
  main_ant : ant
  delay : Int

/-- Where the `if / else if` chain of one loop iteration ends: at the flag checks
with the two flags, or at the `continue` that skips them. -/
inductive Outcome where
  | flags (s : Session) (refresh_screen reset : Bool)
  | continue_loop (s : Session)

/-- The branch `else if (state == RUNNING)` of the main loop. -/
def running_branch (pattern : List Char) (s : Session) (ch : Key) : Option Outcome :=
  if ch = Key.ERR then
    match update_grid s.grid s.main_ant pattern with
    | none => none
    | some (grid1, ant1) =>
      let s1 := { s with grid := grid1, main_ant := ant1 }
      if ant1.pos.y < 0 ∨ ant1.pos.y ≥ GRID_SIZE_Y ∨
          ant1.pos.x < 0 ∨ ant1.pos.x ≥ GRID_SIZE_X then
        some (.continue_loop { s1 with state := game_state.GAME_OVER })
      else
        let s2 :=
          if s1.step_count < UINT_MAX then
            { s1 with step_count := (s1.step_count + 1) % 2 ^ 32 }
          else s1
        some (.flags s2 true false)
  else if ch = Key.chr 'p' then
    some (.flags { s with state := game_state.PAUSED } false false)
  else if ch = Key.chr 'r' then
    some (.flags s false true)
  else if ch = Key.chr '1' then
    some (.flags { s with delay := 10 } false false)
  else if ch = Key.chr '2' then
    some (.flags { s with delay := 5 } false false)
  else if ch = Key.chr '3' then
    some (.flags { s with delay := 1 } false false)
  else
    some (.flags s false false)

/-- The branch `else if (state == PAUSED)` of the main loop. -/
def paused_branch (s : Session) (ch : Key) : Outcome :=
  if ch = Key.chr 'p' then .flags { s with state := game_state.RUNNING } false false
  else .flags s false false

/-- The branch `else if (state == GAME_OVER)` of the main loop. -/
def game_over_branch (s : Session) (ch : Key) : Outcome :=
  if ch = Key.chr 'r' then .flags s false true
  else .flags s false false

/-- The `if / else if` chain at the top of one iteration of the main loop. -/
def handle_key (pattern : List Char) (s : Session) (ch : Key) : Option Outcome :=
  match ch with
  | .KEY_RESIZE row col => some (.flags { s with row := row, col := col } true false)
  | .KEY_LEFT =>
    some (.flags { s with grid_offset := update_offset s.grid_offset .LEFT } true false)
  | .KEY_UP =>
    some (.flags { s with grid_offset := update_offset s.grid_offset .UP } true false)
  | .KEY_RIGHT =>
    some (.flags { s with grid_offset := update_offset s.grid_offset .RIGHT } true false)
  | .KEY_DOWN =>
    some (.flags { s with grid_offset := update_offset s.grid_offset .DOWN } true false)
  | _ =>
    if ch = Key.chr 'c' then
      some (.flags { s with grid_offset := update_offset s.grid_offset .ZERO } true false)
    else if ch = Key.chr 'a' then
      some (.flags
        { s with grid_offset := center_ant s.main_ant s.row s.col s.grid_offset } true false)
    else
      match s.state with
      | .RUNNING => running_branch pattern s ch
      | .PAUSED => some (paused_branch s ch)
      | .GAME_OVER => some (game_over_branch s ch)

/-- The block `if (reset) { ... }` of the main loop, `dir` being `dir[0]`. -/
def reset_session (dir : Char) (s : Session) : Session :=
  { s with
    grid_offset := update_offset s.grid_offset .ZERO,
    delay := 5,
    main_ant :=
      set_ant_dir
        { s.main_ant with
          pos := set_point s.main_ant.pos (Int.tdiv GRID_SIZE_Y 2) (Int.tdiv GRID_SIZE_X 2) }
        dir,
    grid := init_grid s.grid,
    step_count := 0,
    state := game_state.RUNNING }

/-- The block `if (refresh_screen) { ... }` of the main loop: of its calls only
`render_ant` changes a variable of `main`. -/
def refresh (s : Session) : Session :=
  { s with main_ant := render_ant s.main_ant s.row s.col s.grid_offset }

/-- The flag checks that end one iteration of the main loop. -/
def check_flags (dir : Char) (s : Session) (refresh_screen reset : Bool) : Session :=
  let s1 := if reset then reset_session dir s else s
  let refresh_screen1 := if reset then true else refresh_screen
  if refresh_screen1 then refresh s1 else s1

/-- One iteration of `while ((ch = getch()) != 'q')` for a key `ch` other than `q`. -/
def loop_body (dir : Char) (pattern : List Char) (s : Session) (ch : Key) :
    Option Session :=
  match handle_key pattern s ch with
  | none => none
  | some (.continue_loop s1) => some s1
  | some (.flags s1 refresh_screen reset) => some (check_flags dir s1 refresh_screen reset)

/-- The main loop on the successive results of `getch()`; it ends at the first `q`
(or when the recorded keys are used up). -/
def main_loop (dir : Char) (pattern : List Char) (s : Session) : List Key → Option Session
  | [] => some s
  | ch :: rest =>
    if ch = Key.chr 'q' then some s
    else
      match loop_body dir pattern s ch with
      | none => none
      | some s1 => main_loop dir pattern s1 rest

/-- The variables of `main` when the main loop is entered: `row`, `col` are the
terminal size from `getmaxyx`, `dir` is `dir[0]`, and `ant0` is the content the
local `ant main_ant` has before `main` assigns to it (the source does not
initialise it). -/
def init_session (dir : Char) (row col : Int) (ant0 : ant) : Session :=
  let grid0 : Grid := fun _ _ => 0
  let grid_offset := update_offset { y := 0, x := 0 } .ZERO
  let a1 := { ant0 with
    pos := set_point ant0.pos (Int.tdiv GRID_SIZE_Y 2) (Int.tdiv GRID_SIZE_X 2) }
  let a2 := set_ant_dir a1 dir
  let grid1 := init_grid grid0
  let a3 := render_ant a2 row col grid_offset
  { state := game_state.RUNNING, row := row, col := col, step_count := 0,
    grid := grid1, grid_offset := grid_offset, main_ant := a3, delay := 5 }

/-- The run of `main` from its entry to the main loop.  `has_colors` is the answer of
the terminal; `Except.error n` is `return n` before the session exists. -/
def main_start (argv : List (List Char)) (dir0 pattern0 : List Char) (has_colors : Bool)
    (row col : Int) (ant0 : ant) : Except Nat (Session × Char × List Char) :=
  match parse_args argv dir0 pattern0 with
  | .error n => .error n
  | .ok (dir, pattern) =>
    if has_colors = false then .error 1
    else .ok (init_session (dir.headD NUL) row col ant0, dir.headD NUL, pattern)

/-! ## Vocabulary of the specification -/

/-- The four orthogonal unit vectors `(row, col)`: left, right, up, down. -/
def is_heading (d : point) : Prop :=
  d = { y := 0, x := -1 } ∨ d = { y := 0, x := 1 } ∨
  d = { y := -1, x := 0 } ∨ d = { y := 1, x := 0 }

/-- Turn directives of the rule table, in the words of the specification. -/
inductive Turn where
  | Left
  | Right
  | UTurn
  | None
deriving DecidableEq, Repr

/-- The rotation of the specification, written from its four formulas:
`Right: (dy, dx) -> (dx, -dy)`, `Left: (dy, dx) -> (-dx, dy)`,
`UTurn: (dy, dx) -> (-dy, -dx)`, `None`: unchanged. -/
def spec_rotate (d : point) : Turn → point
  | .Right => { y := d.x, x := -d.y }
  | .Left => { y := -d.x, x := d.y }
  | .UTurn => { y := -d.y, x := -d.x }
  | .None => d

/-- The turn a pattern character names in the specification, in either case:
`L` Left, `R` Right, `U` UTurn, `N` None; no turn for any other character. -/
def spec_turn (c : Char) : Option Turn :=
  if c = 'L' ∨ c = 'l' then some .Left
  else if c = 'R' ∨ c = 'r' then some .Right
  else if c = 'U' ∨ c = 'u' then some .UTurn
  else if c = 'N' ∨ c = 'n' then some .None
  else none

/-- The characters a pattern may contain. -/
def pattern_letters : List Char := ['L', 'l', 'R', 'r', 'U', 'u', 'N', 'n']

/-- The characters a heading token may be. -/
def heading_tokens : List Char := ['L', 'l', 'U', 'u', 'R', 'r', 'D', 'd']

/-- A pattern the specification calls valid: between 2 and 16 characters, each one
of `L l R r U u N n`. -/
def valid_pattern (pattern : List Char) : Prop :=
  2 ≤ pattern.length ∧ pattern.length ≤ 16 ∧ ∀ c ∈ pattern, c ∈ pattern_letters

/-- Every cell of the array holds a colour index below `L`. -/
def grid_below (grid : Grid) (L : Int) : Prop :=
  ∀ y x, in_grid y x → 0 ≤ grid y x ∧ grid y x < L

/-- The session an outcome of the key dispatch carries. -/
def Outcome.session : Outcome → Session
  | .flags s _ _ => s
  | .continue_loop s => s

/-- What holds of the variables of `main` between two iterations of the main loop,
for the heading token `dir` and a pattern of length `L`: the direction is one of the
four headings (when `dir` is a heading token), every cell holds a colour below `L`,
the ant is inside the grid unless the game is over, and the step counter fits an
`unsigned int`. -/
def session_inv (dir : Char) (L : Int) (s : Session) : Prop :=
  (dir ∈ heading_tokens → is_heading s.main_ant.dir) ∧ grid_below s.grid L ∧
  (s.state ≠ game_state.GAME_OVER → in_grid s.main_ant.pos.y s.main_ant.pos.x) ∧
  s.step_count ≤ UINT_MAX

/-! ## Characters -/

theorem toNat_ofNat_small (n : Nat) (h : n < 55296) : (Char.ofNat n).toNat = n := by
  have hv : n.isValidChar := Or.inl h
  simp only [Char.ofNat, hv, Char.toNat, Char.ofNatAux, dite_true]
  show (BitVec.ofNatLt n _).toNat = n
  simp

theorem char_eq_of_toNat {a b : Char} (h : a.toNat = b.toNat) : a = b := by
  rw [← Char.ofNat_toNat a, ← Char.ofNat_toNat b, h]

theorem toupper_toNat (c : Char) :
    (toupper c).toNat = if 97 ≤ c.toNat ∧ c.toNat ≤ 122 then c.toNat - 32 else c.toNat := by
  unfold toupper
  split
  · rw [toNat_ofNat_small]; omega
  · rfl

/-- The only characters `toupper` sends to `u` are `u` itself and the character 32
code points above it. -/
theorem toupper_eq_upper (c u : Char) (h : toupper c = u) :
    c = u ∨ c.toNat = u.toNat + 32 := by
  have h2 := congrArg Char.toNat h
  rw [toupper_toNat] at h2
  split at h2
  · right; omega
  · left; exact char_eq_of_toNat h2

theorem toupper_eq_L (c : Char) : toupper c = 'L' ↔ (c = 'L' ∨ c = 'l') := by
  constructor
  · intro h
    rcases toupper_eq_upper c 'L' h with h1 | h1
    · exact Or.inl h1
    · exact Or.inr (char_eq_of_toNat h1)
  · rintro (rfl | rfl) <;> decide

theorem toupper_eq_R (c : Char) : toupper c = 'R' ↔ (c = 'R' ∨ c = 'r') := by
  constructor
  · intro h
    rcases toupper_eq_upper c 'R' h with h1 | h1
    · exact Or.inl h1
    · exact Or.inr (char_eq_of_toNat h1)
  · rintro (rfl | rfl) <;> decide

theorem toupper_eq_U (c : Char) : toupper c = 'U' ↔ (c = 'U' ∨ c = 'u') := by
  constructor
  · intro h
    rcases toupper_eq_upper c 'U' h with h1 | h1
    · exact Or.inl h1
    · exact Or.inr (char_eq_of_toNat h1)
  · rintro (rfl | rfl) <;> decide

theorem toupper_eq_N (c : Char) : toupper c = 'N' ↔ (c = 'N' ∨ c = 'n') := by
  constructor
  · intro h
    rcases toupper_eq_upper c 'N' h with h1 | h1
    · exact Or.inl h1
    · exact Or.inr (char_eq_of_toNat h1)
  · rintro (rfl | rfl) <;> decide

theorem toupper_eq_D (c : Char) : toupper c = 'D' ↔ (c = 'D' ∨ c = 'd') := by
  constructor
  · intro h
    rcases toupper_eq_upper c 'D' h with h1 | h1
    · exact Or.inl h1
    · exact Or.inr (char_eq_of_toNat h1)
  · rintro (rfl | rfl) <;> decide

/-! ## Rotation -/

/-- The switch of `rotate_ant` performs the turn the character names. -/
theorem rotate_switch_spec (a : ant) (c : Char) (t : Turn) (h : spec_turn c = some t) :
    rotate_switch a c = { a with dir := spec_rotate a.dir t } := by
  unfold spec_turn at h
  unfold rotate_switch
  simp only [toupper_eq_L, toupper_eq_R, toupper_eq_U, toupper_eq_N]
  by_cases hL : c = 'L' ∨ c = 'l'
  · have hR : ¬ (c = 'R' ∨ c = 'r') := by rcases hL with rfl | rfl <;> decide
    simp only [hL, if_true, Option.some.injEq] at h
    subst h
    simp [hL, hR, spec_rotate, set_point]
  · by_cases hR : c = 'R' ∨ c = 'r'
    · simp only [hL, hR, if_true, if_false, Option.some.injEq] at h
      subst h
      simp [hR, spec_rotate, set_point]
    · by_cases hU : c = 'U' ∨ c = 'u'
      · simp only [hL, hR, hU, if_true, if_false, Option.some.injEq] at h
        subst h
        simp [hL, hR, hU, spec_rotate, set_point]
      · by_cases hN : c = 'N' ∨ c = 'n'
        · simp only [hL, hR, hU, hN, if_true, if_false, Option.some.injEq] at h
          subst h
          simp [hL, hR, hU, spec_rotate]
        · simp [hL, hR, hU, hN] at h

/-- A pattern letter names a turn. -/
theorem spec_turn_defined (c : Char) (h : c ∈ pattern_letters) : ∃ t, spec_turn c = some t := by
  simp only [pattern_letters, List.mem_cons, List.mem_singleton, List.not_mem_nil,
    or_false] at h
  rcases h with rfl | rfl | rfl | rfl | rfl | rfl | rfl | rfl
  · exact ⟨.Left, by decide⟩
  · exact ⟨.Left, by decide⟩
  · exact ⟨.Right, by decide⟩
  · exact ⟨.Right, by decide⟩
  · exact ⟨.UTurn, by decide⟩
  · exact ⟨.UTurn, by decide⟩
  · exact ⟨.None, by decide⟩
  · exact ⟨.None, by decide⟩

/-- The loop of `rotate_ant` entered at index `i` reaches the character `k` places
ahead when the tile value is `i + k`. -/
theorem rotate_ant_from_hit (a : ant) (l : List Char) :
    ∀ (i k : Nat) (c : Char), l[k]? = some c →
      rotate_ant_from a ((i + k : Nat) : Int) l i = rotate_switch a c := by
  induction l with
  | nil => intro i k c h; simp at h
  | cons d rest ih =>
    intro i k c h
    cases k with
    | zero =>
      simp only [List.getElem?_cons_zero, Option.some.injEq] at h
      subst h
      simp [rotate_ant_from]
    | succ k =>
      simp only [List.getElem?_cons_succ] at h
      have hne : ((i + (k + 1) : Nat) : Int) ≠ (i : Int) := by omega
      have hidx : i + (k + 1) = (i + 1) + k := by omega
      simp only [rotate_ant_from, hne, if_false]
      rw [hidx]
      exact ih (i + 1) k c h

/-- The loop of `rotate_ant` entered at index `i` leaves the ant as it is when the
tile value is below `i` or past the last character. -/
theorem rotate_ant_from_miss (a : ant) (tile_value : Int) (l : List Char) :
    ∀ (i : Nat), (tile_value < i ∨ (i : Int) + l.length ≤ tile_value) →
      rotate_ant_from a tile_value l i = a := by
  induction l with
  | nil => intro i _; rfl
  | cons d rest ih =>
    intro i h
    have hne : tile_value ≠ (i : Int) := by
      rcases h with h | h
      · omega
      · simp only [List.length_cons, Nat.cast_add, Nat.cast_one] at h; omega
    simp only [rotate_ant_from, hne, if_false]
    apply ih
    rcases h with h | h
    · left; push_cast; omega
    · right; simp only [List.length_cons, Nat.cast_add, Nat.cast_one] at h; push_cast; omega

/-- At a tile value that indexes the pattern, `rotate_ant` runs the switch on that
pattern character. -/
theorem rotate_ant_at (a : ant) (pattern : List Char) (k : Nat) (c : Char)
    (h : pattern[k]? = some c) : rotate_ant a (k : Int) pattern = rotate_switch a c := by
  have := rotate_ant_from_hit a pattern 0 k c h
  simpa [rotate_ant] using this

/-- Each of the three turns of `rotate_switch` keeps a heading a heading. -/
theorem rotate_switch_heading (a : ant) (c : Char) (h : is_heading a.dir) :
    is_heading (rotate_switch a c).dir := by
  unfold rotate_switch
  unfold is_heading at h
  rcases h with h | h | h | h <;>
    (split_ifs <;> simp [is_heading, set_point, h])

/-- The loop of `rotate_ant` keeps a heading a heading, whatever the tile value and
the characters are. -/
theorem rotate_ant_from_heading (a : ant) (tile_value : Int) (l : List Char)
    (h : is_heading a.dir) : ∀ i : Nat, is_heading (rotate_ant_from a tile_value l i).dir := by
  induction l with
  | nil => intro i; exact h
  | cons d rest ih =>
    intro i
    unfold rotate_ant_from
    split_ifs
    · exact rotate_switch_heading a d h
    · exact ih (i + 1)

theorem rotate_ant_heading (a : ant) (tile_value : Int) (pattern : List Char)
    (h : is_heading a.dir) : is_heading (rotate_ant a tile_value pattern).dir :=
  rotate_ant_from_heading a tile_value pattern h 0

/-- The function `rotate_ant` changes the direction only. -/
theorem rotate_ant_from_pos (a : ant) (tile_value : Int) (l : List Char) :
    ∀ i : Nat, (rotate_ant_from a tile_value l i).pos = a.pos ∧
      (rotate_ant_from a tile_value l i).screen_pos = a.screen_pos := by
  induction l with
  | nil => intro i; exact ⟨rfl, rfl⟩
  | cons d rest ih =>
    intro i
    unfold rotate_ant_from
    split_ifs
    · unfold rotate_switch; split_ifs <;> exact ⟨rfl, rfl⟩
    · exact ih (i + 1)

/-- A heading token sets a heading. -/
theorem set_ant_dir_heading (a : ant) (dir : Char) (h : dir ∈ heading_tokens) :
    is_heading (set_ant_dir a dir).dir := by
  simp only [heading_tokens, List.mem_cons, List.mem_singleton, List.not_mem_nil,
    or_false] at h
  rcases h with rfl | rfl | rfl | rfl | rfl | rfl | rfl | rfl <;>
    simp [set_ant_dir, is_heading, set_point, NUL, toupper_eq_L, toupper_eq_U,
      toupper_eq_R, toupper_eq_D]

theorem set_ant_dir_pos (a : ant) (dir : Char) :
    (set_ant_dir a dir).pos = a.pos ∧ (set_ant_dir a dir).screen_pos = a.screen_pos := by
  unfold set_ant_dir
  split_ifs <;> exact ⟨rfl, rfl⟩

/-! ## The grid -/

theorem init_row_upto (grid : Grid) (i : Nat) (y x : Int) :
    ∀ n : Nat, (List.range n).foldl (fun (g : Grid) (j : Nat) => grid_set g (i : Int) (j : Int) 0) grid y x
      = if y = (i : Int) ∧ 0 ≤ x ∧ x < (n : Int) then 0 else grid y x := by
  intro n
  induction n with
  | zero =>
    have : ¬ (y = (i : Int) ∧ 0 ≤ x ∧ x < ((0 : Nat) : Int)) := by
      rintro ⟨_, h1, h2⟩; simp at h2; omega
    simp only [List.range_zero, List.foldl_nil, this, if_false]
  | succ n ih =>
    rw [List.range_succ, List.foldl_append]
    simp only [List.foldl_cons, List.foldl_nil, grid_set]
    rw [ih]
    by_cases hx : x = (n : Int)
    · by_cases hy : y = (i : Int)
      · have : 0 ≤ x ∧ x < ((n + 1 : Nat) : Int) := by push_cast; omega
        simp [hx, hy]
      · simp [hy]
    · have h1 : ¬ (y = (i : Int) ∧ x = (n : Int)) := fun h => hx h.2
      have h2 : (x < ((n + 1 : Nat) : Int)) ↔ x < (n : Int) := by push_cast; omega
      simp only [h1, if_false, h2]

theorem init_row_apply (grid : Grid) (i : Nat) (y x : Int) :
    init_row grid i y x = if y = (i : Int) ∧ 0 ≤ x ∧ x < 201 then 0 else grid y x := by
  unfold init_row
  rw [init_row_upto]
  rfl

theorem init_grid_upto (grid : Grid) (y x : Int) :
    ∀ n : Nat, (List.range n).foldl init_row grid y x
      = if (0 ≤ y ∧ y < (n : Int)) ∧ 0 ≤ x ∧ x < 201 then 0 else grid y x := by
  intro n
  induction n with
  | zero =>
    have : ¬ ((0 ≤ y ∧ y < ((0 : Nat) : Int)) ∧ 0 ≤ x ∧ x < 201) := by
      rintro ⟨⟨h1, h2⟩, _⟩; simp at h2; omega
    simp only [List.range_zero, List.foldl_nil, this, if_false]
  | succ n ih =>
    rw [List.range_succ, List.foldl_append]
    simp only [List.foldl_cons, List.foldl_nil]
    rw [init_row_apply, ih]
    by_cases hx : 0 ≤ x ∧ x < 201
    · by_cases hy : y = (n : Int)
      · have : (0 ≤ y ∧ y < ((n + 1 : Nat) : Int)) := by push_cast; omega
        simp [hx, hy, this]
      · have h2 : (0 ≤ y ∧ y < ((n + 1 : Nat) : Int)) ↔ (0 ≤ y ∧ y < (n : Int)) := by
          push_cast; omega
        simp only [hy, false_and, if_false, h2]
    · have h1 : ¬ (y = (n : Int) ∧ 0 ≤ x ∧ x < 201) := fun h => hx h.2
      have h2 : ¬ ((0 ≤ y ∧ y < ((n + 1 : Nat) : Int)) ∧ 0 ≤ x ∧ x < 201) := fun h => hx h.2
      have h3 : ¬ ((0 ≤ y ∧ y < (n : Int)) ∧ 0 ≤ x ∧ x < 201) := fun h => hx h.2
      simp only [h1, h2, h3, if_false]

/-- The two loops of `init_grid` leave 0 in every cell of the array and touch nothing
else. -/
theorem init_grid_apply (grid : Grid) (y x : Int) :
    init_grid grid y x = if in_grid y x then 0 else grid y x := by
  unfold init_grid
  rw [init_grid_upto]
  have : ((0 ≤ y ∧ y < ((201 : Nat) : Int)) ∧ 0 ≤ x ∧ x < 201) ↔ in_grid y x := by
    unfold in_grid GRID_SIZE_Y GRID_SIZE_X
    push_cast
    tauto
  simp only [this]

/-- Inside the array `change_tile` is the single assignment of the source. -/
theorem change_tile_eq (grid : Grid) (p : point) (n : Int) (h : in_grid p.y p.x) :
    change_tile grid p n = some (grid_set grid p.y p.x (Int.tmod (grid p.y p.x + 1) n)) := by
  simp [change_tile, grid_read, grid_write, h]

/-- With the ant inside the array `update_grid` returns: the ant is rotated by the
colour under it and moved one step, the tile it left is advanced. -/
theorem update_grid_eq (grid : Grid) (a : ant) (pattern : List Char)
    (h : in_grid a.pos.y a.pos.x) :
    update_grid grid a pattern = some
      (grid_set grid a.pos.y a.pos.x
        (Int.tmod (grid a.pos.y a.pos.x + 1) (strlen pattern)),
       { pos := add_points a.pos (rotate_ant a (grid a.pos.y a.pos.x) pattern).dir,
         dir := (rotate_ant a (grid a.pos.y a.pos.x) pattern).dir,
         screen_pos := a.screen_pos }) := by
  have hp := rotate_ant_from_pos a (grid a.pos.y a.pos.x) pattern 0
  simp only [update_grid, grid_read, h, if_true, change_tile_eq grid a.pos _ h]
  simp only [rotate_ant] at hp ⊢
  simp [set_point, add_points, hp.1, hp.2]

/-- Outside the array `update_grid` has no defined result. -/
theorem update_grid_none (grid : Grid) (a : ant) (pattern : List Char)
    (h : ¬ in_grid a.pos.y a.pos.x) : update_grid grid a pattern = none := by
  simp [update_grid, grid_read, h]

/-- The value `change_tile` writes is again a colour index below `L`. -/
theorem tmod_succ_below (v L : Int) (hv : 0 ≤ v) (hL : 0 < L) :
    0 ≤ Int.tmod (v + 1) L ∧ Int.tmod (v + 1) L < L ∧ Int.tmod (v + 1) L = (v + 1) % L := by
  have e : Int.tmod (v + 1) L = (v + 1) % L := Int.tmod_eq_emod (by omega) (by omega)
  rw [e]
  exact ⟨Int.emod_nonneg _ (by omega), Int.emod_lt_of_pos _ hL, rfl⟩

theorem grid_set_below (grid : Grid) (L y x v : Int) (hg : grid_below grid L)
    (hv : 0 ≤ v ∧ v < L) : grid_below (grid_set grid y x v) L := by
  intro i j hij
  unfold grid_set
  split_ifs
  · exact hv
  · exact hg i j hij

/-- A colour index below the pattern length selects a pattern letter. -/
theorem pattern_lookup (pattern : List Char) (hp : valid_pattern pattern) (k : Nat)
    (hk : k < pattern.length) :
    ∃ c t, pattern[k]? = some c ∧ c ∈ pattern_letters ∧ spec_turn c = some t := by
  have hget : pattern[k]? = some (pattern[k]) := List.getElem?_eq_getElem hk
  have hmem : pattern[k] ∈ pattern_letters := hp.2.2 _ (List.getElem_mem hk)
  obtain ⟨t, ht⟩ := spec_turn_defined _ hmem
  exact ⟨pattern[k], t, hget, hmem, ht⟩

/-- The first step of the default session: from the centre, heading left, on colour 0
of pattern `RL`. -/
theorem first_step_RL (grid : Grid) (sp : point) (h0 : grid 100 100 = 0) :
    update_grid grid
        { pos := { y := 100, x := 100 }, dir := { y := 0, x := -1 }, screen_pos := sp }
        "RL".toList
      = some (grid_set grid 100 100 1,
          { pos := { y := 99, x := 100 }, dir := { y := -1, x := 0 }, screen_pos := sp }) := by
  have hin : in_grid 100 100 := by decide
  rw [update_grid_eq _ _ _ hin]
  simp only [h0]
  have hr : ∀ a : ant, rotate_ant a 0 "RL".toList = rotate_switch a 'R' := by
    intro a
    exact rotate_ant_at a "RL".toList 0 'R' (by decide)
  simp only [hr]
  have hm : Int.tmod 1 2 = 1 := by decide
  simp [rotate_switch, toupper_eq_R, set_point, add_points, strlen, hm]

/-! ## The session at the start of the main loop -/

theorem init_session_grid (dir : Char) (row col : Int) (ant0 : ant) :
    (init_session dir row col ant0).grid = init_grid (fun _ _ => 0) := by
  simp only [init_session]

theorem init_session_zero (dir : Char) (row col : Int) (ant0 : ant) (y x : Int) :
    (init_session dir row col ant0).grid y x = 0 := by
  rw [init_session_grid, init_grid_apply]
  split_ifs <;> rfl

theorem init_session_pos (dir : Char) (row col : Int) (ant0 : ant) :
    (init_session dir row col ant0).main_ant.pos = { y := 100, x := 100 } := by
  simp only [init_session, render_ant, (set_ant_dir_pos _ dir).1, set_point]
  decide

theorem init_session_dir (dir : Char) (row col : Int) (ant0 : ant) :
    (init_session dir row col ant0).main_ant.dir
      = (set_ant_dir { ant0 with pos := { y := 100, x := 100 } } dir).dir := by
  simp only [init_session, render_ant, set_point]
  rfl

theorem init_session_fields (dir : Char) (row col : Int) (ant0 : ant) :
    (init_session dir row col ant0).state = game_state.RUNNING ∧
    (init_session dir row col ant0).step_count = 0 := by
  simp only [init_session, and_self]

/-! ## Claims -/

/-- C1. For a valid pattern of length `L`, a grid with cells in `[0, L)` and an ant
inside the grid, `update_grid` returns; the colour read at the old position, in the
grid before the step, indexes a pattern letter naming a turn `t`; the new direction is
the specification's rotation of the old direction by `t`, and the new position is the
old position plus the new direction, componentwise. -/
theorem update_grid_rotates_then_moves (pattern : List Char) (grid : Grid) (a : ant)
    (hp : valid_pattern pattern) (hg : grid_below grid pattern.length)
    (ha : in_grid a.pos.y a.pos.x) :
    ∃ (c : Char) (t : Turn) (grid1 : Grid) (a1 : ant),
      pattern[(grid a.pos.y a.pos.x).toNat]? = some c ∧ spec_turn c = some t ∧
      update_grid grid a pattern = some (grid1, a1) ∧
      a1.dir = spec_rotate a.dir t ∧
      a1.pos = { y := a.pos.y + a1.dir.y, x := a.pos.x + a1.dir.x } := by
  obtain ⟨h0, hlt⟩ := hg _ _ ha
  have hk : (grid a.pos.y a.pos.x).toNat < pattern.length := by omega
  obtain ⟨c, t, hc, _, ht⟩ := pattern_lookup pattern hp _ hk
  have hcast : (((grid a.pos.y a.pos.x).toNat : Nat) : Int) = grid a.pos.y a.pos.x :=
    Int.toNat_of_nonneg h0
  have hrot : rotate_ant a (grid a.pos.y a.pos.x) pattern
      = { a with dir := spec_rotate a.dir t } := by
    have := rotate_ant_at a pattern _ c hc
    rw [hcast] at this
    rw [this, rotate_switch_spec a c t ht]
  refine ⟨c, t, _, _, hc, ht, update_grid_eq grid a pattern ha, ?_, ?_⟩
  · simp [hrot]
  · simp [hrot, add_points]

theorem update_grid_rotates_then_moves_witness :
    ∃ (c : Char) (t : Turn) (grid1 : Grid) (a1 : ant),
      "LRN".toList[((fun _ _ => 1 : Grid) 7 200).toNat]? = some c ∧ spec_turn c = some t ∧
      update_grid (fun _ _ => 1)
        { pos := { y := 7, x := 200 }, dir := { y := 1, x := 0 },
          screen_pos := { y := 0, x := 0 } } "LRN".toList = some (grid1, a1) ∧
      a1.dir = spec_rotate { y := 1, x := 0 } t ∧
      a1.pos = { y := 7 + a1.dir.y, x := 200 + a1.dir.x } :=
  update_grid_rotates_then_moves "LRN".toList (fun _ _ => 1)
    { pos := { y := 7, x := 200 }, dir := { y := 1, x := 0 },
      screen_pos := { y := 0, x := 0 } }
    (by
      refine ⟨by decide, by decide, ?_⟩
      intro c hc
      simp only [String.toList, List.mem_cons, List.mem_singleton, List.not_mem_nil,
        or_false] at hc
      rcases hc with rfl | rfl | rfl <;> decide)
    (by
      intro y x _
      show (0 : Int) ≤ 1 ∧ (1 : Int) < ((3 : Nat) : Int)
      decide)
    (by decide)

/-- C2. For a pattern of length `L` with `2 <= L <= 16`, a grid with cells in
`[0, L)` and an ant inside the grid, `update_grid` returns a grid in which the cell at
the old position of the ant holds `(old value + 1) mod L`, which differs from the old
value, and every other cell is unchanged; an ant with one of the four headings has
moved off that cell, so the recoloured tile is the vacated one. -/
theorem update_grid_changes_one_cell (pattern : List Char) (grid : Grid) (a : ant)
    (hlen : 2 ≤ pattern.length ∧ pattern.length ≤ 16)
    (hg : grid_below grid pattern.length) (ha : in_grid a.pos.y a.pos.x) :
    ∃ (grid1 : Grid) (a1 : ant),
      update_grid grid a pattern = some (grid1, a1) ∧
      grid1 a.pos.y a.pos.x = (grid a.pos.y a.pos.x + 1) % (pattern.length : Int) ∧
      grid1 a.pos.y a.pos.x ≠ grid a.pos.y a.pos.x ∧
      (∀ y x, ¬ (y = a.pos.y ∧ x = a.pos.x) → grid1 y x = grid y x) ∧
      (is_heading a.dir → a1.pos ≠ a.pos) := by
  obtain ⟨h0, hlt⟩ := hg _ _ ha
  have hL : (0 : Int) < (pattern.length : Int) := by omega
  obtain ⟨_, _, he⟩ := tmod_succ_below (grid a.pos.y a.pos.x) pattern.length h0 hL
  refine ⟨_, _, update_grid_eq grid a pattern ha, ?_, ?_, ?_, ?_⟩
  · simp [grid_set, strlen, he]
  · simp only [grid_set, strlen, he, and_self, if_true]
    by_cases hlast : grid a.pos.y a.pos.x + 1 = (pattern.length : Int)
    · rw [hlast, Int.emod_self]; omega
    · rw [Int.emod_eq_of_lt (by omega) (by omega)]; omega
  · intro y x hne
    simp [grid_set, hne]
  · intro hd
    have hh := rotate_ant_heading a (grid a.pos.y a.pos.x) pattern hd
    intro heq
    have hy := congrArg point.y heq
    have hx := congrArg point.x heq
    simp only [add_points] at hy hx
    unfold is_heading at hh
    rcases hh with h | h | h | h <;> rw [h] at hy hx <;> simp at hy hx

theorem update_grid_changes_one_cell_witness :
    ∃ (grid1 : Grid) (a1 : ant),
      update_grid (fun _ _ => 2)
        { pos := { y := 0, x := 0 }, dir := { y := 0, x := 1 },
          screen_pos := { y := 0, x := 0 } } "LRN".toList = some (grid1, a1) ∧
      grid1 0 0 = ((fun _ _ => 2 : Grid) 0 0 + 1) % (("LRN".toList.length : Nat) : Int) ∧
      grid1 0 0 ≠ (fun _ _ => 2 : Grid) 0 0 ∧
      (∀ y x, ¬ (y = 0 ∧ x = 0) → grid1 y x = (fun _ _ => 2 : Grid) y x) ∧
      (is_heading { y := 0, x := 1 } → a1.pos ≠ { y := 0, x := 0 }) :=
  update_grid_changes_one_cell "LRN".toList (fun _ _ => 2)
    { pos := { y := 0, x := 0 }, dir := { y := 0, x := 1 },
      screen_pos := { y := 0, x := 0 } }
    (by decide)
    (by
      intro y x _
      show (0 : Int) ≤ 2 ∧ (2 : Int) < ((3 : Nat) : Int)
      decide)
    (by decide)

/-- C3, as it is written, fails: from the centre `(100,100)` of an all-zero grid, with
the direction `(0,-1)` that `set_ant_dir` gives for the token `L`, one `update_grid`
under pattern `RL` yields direction `(-1,0)`, position `(99,100)` and colour 1 at
`(100,100)`; so it does not yield direction `(1,0)` and position `(101,100)`. -/
theorem scenario_RL_not_down :
    (set_ant_dir
        { pos := { y := 100, x := 100 }, dir := { y := 0, x := 0 },
          screen_pos := { y := 0, x := 0 } } 'L').dir = { y := 0, x := -1 } ∧
    (update_grid (fun _ _ => 0)
        (set_ant_dir
          { pos := { y := 100, x := 100 }, dir := { y := 0, x := 0 },
            screen_pos := { y := 0, x := 0 } } 'L') "RL".toList).map
      (fun r => (r.2.dir, r.2.pos, r.1 100 100))
      = some ({ y := -1, x := 0 }, { y := 99, x := 100 }, 1) ∧
    ¬ ∃ (grid1 : Grid) (a1 : ant),
      update_grid (fun _ _ => 0)
        (set_ant_dir
          { pos := { y := 100, x := 100 }, dir := { y := 0, x := 0 },
            screen_pos := { y := 0, x := 0 } } 'L') "RL".toList = some (grid1, a1) ∧
      a1.dir = { y := 1, x := 0 } ∧ a1.pos = { y := 101, x := 100 } ∧ grid1 100 100 = 1 := by
  have hset : set_ant_dir
        { pos := { y := 100, x := 100 }, dir := { y := 0, x := 0 },
          screen_pos := { y := 0, x := 0 } } 'L'
      = { pos := { y := 100, x := 100 }, dir := { y := 0, x := -1 },
          screen_pos := { y := 0, x := 0 } } := by decide
  rw [hset, first_step_RL (fun _ _ => 0) { y := 0, x := 0 } rfl]
  refine ⟨rfl, ?_, ?_⟩
  · simp [grid_set]
  · rintro ⟨grid1, a1, h, hd, _, _⟩
    simp only [Option.some.injEq, Prod.mk.injEq] at h
    rw [← h.2] at hd
    exact absurd hd (by decide)

/-- C3, amended.  In the session `main` builds for heading token `L` (any terminal
size, any prior content of `main_ant`), the ant is at `(100,100)` with direction
`(0,-1)` on an all-zero grid, and one call of `update_grid` with pattern `RL` turns it
Right, `(dy,dx) -> (dx,-dy)`, so that its direction becomes `(-1,0)`, moves it to
`(99,100)`, and sets cell `(100,100)` to colour 1. -/
theorem scenario_RL_first_step (row col : Int) (ant0 : ant) :
    (init_session 'L' row col ant0).main_ant.pos = { y := 100, x := 100 } ∧
    (init_session 'L' row col ant0).main_ant.dir = { y := 0, x := -1 } ∧
    (∀ y x, in_grid y x → (init_session 'L' row col ant0).grid y x = 0) ∧
    ∃ (grid1 : Grid) (a1 : ant),
      update_grid (init_session 'L' row col ant0).grid
        (init_session 'L' row col ant0).main_ant "RL".toList = some (grid1, a1) ∧
      a1.dir = spec_rotate (init_session 'L' row col ant0).main_ant.dir Turn.Right ∧
      a1.dir = { y := -1, x := 0 } ∧ a1.pos = { y := 99, x := 100 } ∧
      grid1 100 100 = 1 := by
  have hgrid : ∀ y x, (init_session 'L' row col ant0).grid y x = 0 :=
    init_session_zero 'L' row col ant0
  have hdir : (init_session 'L' row col ant0).main_ant.dir = { y := 0, x := -1 } := by
    rw [init_session_dir]
    simp [set_ant_dir, NUL, toupper_eq_L, set_point]
  have hant : ∃ sp, (init_session 'L' row col ant0).main_ant
      = { pos := { y := 100, x := 100 }, dir := { y := 0, x := -1 }, screen_pos := sp } := by
    refine ⟨(init_session 'L' row col ant0).main_ant.screen_pos, ?_⟩
    rw [← hdir, ← init_session_pos 'L' row col ant0]
  obtain ⟨sp, hsp⟩ := hant
  rw [hsp]
  refine ⟨rfl, rfl, fun y x _ => hgrid y x, ?_⟩
  rw [first_step_RL _ sp (hgrid 100 100)]
  refine ⟨_, _, rfl, ?_, rfl, rfl, ?_⟩
  · simp [spec_rotate]
  · simp [grid_set]

/-- C4. For a valid pattern of length `L` and a colour index `c < L`, `pattern[c]`
is defined and names a turn, and `rotate_ant` changes the direction, and nothing else,
by exactly that turn: `R` or `r` sends `(dy,dx)` to `(dx,-dy)`, `L` or `l` to
`(-dx,dy)`, `U` or `u` to `(-dy,-dx)`, and `N` or `n` leaves it unchanged. -/
theorem rotate_ant_applies_pattern_turn (pattern : List Char) (c : Nat) (a : ant)
    (hp : valid_pattern pattern) (hc : c < pattern.length) :
    ∃ (ch : Char) (t : Turn),
      pattern[c]? = some ch ∧ spec_turn ch = some t ∧
      rotate_ant a (c : Int) pattern = { a with dir := spec_rotate a.dir t } ∧
      ((ch = 'R' ∨ ch = 'r') →
        (rotate_ant a (c : Int) pattern).dir = { y := a.dir.x, x := -a.dir.y }) ∧
      ((ch = 'L' ∨ ch = 'l') →
        (rotate_ant a (c : Int) pattern).dir = { y := -a.dir.x, x := a.dir.y }) ∧
      ((ch = 'U' ∨ ch = 'u') →
        (rotate_ant a (c : Int) pattern).dir = { y := -a.dir.y, x := -a.dir.x }) ∧
      ((ch = 'N' ∨ ch = 'n') → (rotate_ant a (c : Int) pattern).dir = a.dir) := by
  obtain ⟨ch, t, hch, _, ht⟩ := pattern_lookup pattern hp c hc
  have hrot : rotate_ant a (c : Int) pattern = { a with dir := spec_rotate a.dir t } := by
    rw [rotate_ant_at a pattern c ch hch, rotate_switch_spec a ch t ht]
  refine ⟨ch, t, hch, ht, hrot, ?_, ?_, ?_, ?_⟩ <;> intro h <;> rw [hrot] <;>
    (rcases h with rfl | rfl <;>
      (have ht2 := ht
       simp only [spec_turn] at ht2
       simp at ht2
       subst ht2
       rfl))

theorem rotate_ant_applies_pattern_turn_witness :
    ∃ (ch : Char) (t : Turn),
      "RlUn".toList[2]? = some ch ∧ spec_turn ch = some t ∧
      rotate_ant
          { pos := { y := 3, x := 4 }, dir := { y := 0, x := 1 },
            screen_pos := { y := 0, x := 0 } } ((2 : Nat) : Int) "RlUn".toList
        = { pos := { y := 3, x := 4 }, dir := spec_rotate { y := 0, x := 1 } t,
            screen_pos := { y := 0, x := 0 } } ∧
      ((ch = 'R' ∨ ch = 'r') →
        (rotate_ant
          { pos := { y := 3, x := 4 }, dir := { y := 0, x := 1 },
            screen_pos := { y := 0, x := 0 } } ((2 : Nat) : Int) "RlUn".toList).dir
          = { y := 1, x := -0 }) ∧
      ((ch = 'L' ∨ ch = 'l') →
        (rotate_ant
          { pos := { y := 3, x := 4 }, dir := { y := 0, x := 1 },
            screen_pos := { y := 0, x := 0 } } ((2 : Nat) : Int) "RlUn".toList).dir
          = { y := -1, x := 0 }) ∧
      ((ch = 'U' ∨ ch = 'u') →
        (rotate_ant
          { pos := { y := 3, x := 4 }, dir := { y := 0, x := 1 },
            screen_pos := { y := 0, x := 0 } } ((2 : Nat) : Int) "RlUn".toList).dir
          = { y := -0, x := -1 }) ∧
      ((ch = 'N' ∨ ch = 'n') →
        (rotate_ant
          { pos := { y := 3, x := 4 }, dir := { y := 0, x := 1 },
            screen_pos := { y := 0, x := 0 } } ((2 : Nat) : Int) "RlUn".toList).dir
          = { y := 0, x := 1 }) :=
  rotate_ant_applies_pattern_turn "RlUn".toList 2
    { pos := { y := 3, x := 4 }, dir := { y := 0, x := 1 },
      screen_pos := { y := 0, x := 0 } }
    (by
      refine ⟨by decide, by decide, ?_⟩
      intro c hc
      simp only [String.toList, List.mem_cons, List.mem_singleton, List.not_mem_nil,
        or_false] at hc
      rcases hc with rfl | rfl | rfl | rfl <;> decide)
    (by decide)

/-- C5. The rotation performed by `rotate_ant` is a group action on direction
vectors.  Whenever the tile values `i`, `j`, `k` select an `R`, an `L` and a `U` (in
either case) of the patterns `pr`, `pl`, `pu`: four Right turns return the original
ant, two UTurns return the original ant, and Left undoes Right in both orders. -/
theorem rotate_ant_group_action (a : ant) (pr pl pu : List Char) (i j k : Nat)
    (r l u : Char)
    (hr : pr[i]? = some r) (hR : r = 'R' ∨ r = 'r')
    (hl : pl[j]? = some l) (hL : l = 'L' ∨ l = 'l')
    (hu : pu[k]? = some u) (hU : u = 'U' ∨ u = 'u') :
    rotate_ant (rotate_ant (rotate_ant (rotate_ant a (i : Int) pr) (i : Int) pr)
      (i : Int) pr) (i : Int) pr = a ∧
    rotate_ant (rotate_ant a (k : Int) pu) (k : Int) pu = a ∧
    rotate_ant (rotate_ant a (i : Int) pr) (j : Int) pl = a ∧
    rotate_ant (rotate_ant a (j : Int) pl) (i : Int) pr = a := by
  have tR : spec_turn r = some Turn.Right := by rcases hR with rfl | rfl <;> decide
  have tL : spec_turn l = some Turn.Left := by rcases hL with rfl | rfl <;> decide
  have tU : spec_turn u = some Turn.UTurn := by rcases hU with rfl | rfl <;> decide
  have eR : ∀ b : ant, rotate_ant b (i : Int) pr = { b with dir := spec_rotate b.dir .Right } :=
    fun b => by rw [rotate_ant_at b pr i r hr, rotate_switch_spec b r _ tR]
  have eL : ∀ b : ant, rotate_ant b (j : Int) pl = { b with dir := spec_rotate b.dir .Left } :=
    fun b => by rw [rotate_ant_at b pl j l hl, rotate_switch_spec b l _ tL]
  have eU : ∀ b : ant, rotate_ant b (k : Int) pu = { b with dir := spec_rotate b.dir .UTurn } :=
    fun b => by rw [rotate_ant_at b pu k u hu, rotate_switch_spec b u _ tU]
  obtain ⟨pos, ⟨dy, dx⟩, sp⟩ := a
  simp only [eR, eL, eU, spec_rotate, neg_neg, and_self]

theorem rotate_ant_group_action_witness :
    rotate_ant (rotate_ant (rotate_ant (rotate_ant
      { pos := { y := 5, x := 6 }, dir := { y := 0, x := 1 },
        screen_pos := { y := 0, x := 0 } }
      ((0 : Nat) : Int) "RLU".toList) ((0 : Nat) : Int) "RLU".toList)
      ((0 : Nat) : Int) "RLU".toList) ((0 : Nat) : Int) "RLU".toList
      = { pos := { y := 5, x := 6 }, dir := { y := 0, x := 1 },
          screen_pos := { y := 0, x := 0 } } ∧
    rotate_ant (rotate_ant
      { pos := { y := 5, x := 6 }, dir := { y := 0, x := 1 },
        screen_pos := { y := 0, x := 0 } }
      ((2 : Nat) : Int) "RLU".toList) ((2 : Nat) : Int) "RLU".toList
      = { pos := { y := 5, x := 6 }, dir := { y := 0, x := 1 },
          screen_pos := { y := 0, x := 0 } } ∧
    rotate_ant (rotate_ant
      { pos := { y := 5, x := 6 }, dir := { y := 0, x := 1 },
        screen_pos := { y := 0, x := 0 } }
      ((0 : Nat) : Int) "RLU".toList) ((1 : Nat) : Int) "RLU".toList
      = { pos := { y := 5, x := 6 }, dir := { y := 0, x := 1 },
          screen_pos := { y := 0, x := 0 } } ∧
    rotate_ant (rotate_ant
      { pos := { y := 5, x := 6 }, dir := { y := 0, x := 1 },
        screen_pos := { y := 0, x := 0 } }
      ((1 : Nat) : Int) "RLU".toList) ((0 : Nat) : Int) "RLU".toList
      = { pos := { y := 5, x := 6 }, dir := { y := 0, x := 1 },
          screen_pos := { y := 0, x := 0 } } :=
  rotate_ant_group_action
    { pos := { y := 5, x := 6 }, dir := { y := 0, x := 1 },
      screen_pos := { y := 0, x := 0 } }
    "RLU".toList "RLU".toList "RLU".toList 0 1 2 'R' 'L' 'U'
    (by decide) (by decide) (by decide) (by decide) (by decide) (by decide)

/-- C9. The function `set_ant_dir` maps the token, in either case, to a unit vector
`(row, col)`: `L` to `(0,-1)`, `U` to `(-1,0)`, `R` to `(0,1)`, `D` to `(1,0)`, changing
nothing but the direction; for every other character, and for the NUL character, it
returns the ant exactly as it was. -/
theorem set_ant_dir_table (a : ant) (c : Char) :
    ((c = 'L' ∨ c = 'l') → set_ant_dir a c = { a with dir := { y := 0, x := -1 } }) ∧
    ((c = 'U' ∨ c = 'u') → set_ant_dir a c = { a with dir := { y := -1, x := 0 } }) ∧
    ((c = 'R' ∨ c = 'r') → set_ant_dir a c = { a with dir := { y := 0, x := 1 } }) ∧
    ((c = 'D' ∨ c = 'd') → set_ant_dir a c = { a with dir := { y := 1, x := 0 } }) ∧
    (c ∉ heading_tokens → set_ant_dir a c = a) ∧
    set_ant_dir a NUL = a := by
  refine ⟨?_, ?_, ?_, ?_, ?_, ?_⟩
  · rintro (rfl | rfl) <;>
      simp [set_ant_dir, NUL, set_point, toupper_eq_L]
  · rintro (rfl | rfl) <;>
      simp [set_ant_dir, NUL, set_point, toupper_eq_L, toupper_eq_U]
  · rintro (rfl | rfl) <;>
      simp [set_ant_dir, NUL, set_point, toupper_eq_L, toupper_eq_U, toupper_eq_R]
  · rintro (rfl | rfl) <;>
      simp [set_ant_dir, NUL, set_point, toupper_eq_L, toupper_eq_U, toupper_eq_R,
        toupper_eq_D]
  · intro h
    simp only [heading_tokens, List.mem_cons, List.mem_singleton, List.not_mem_nil,
      or_false, not_or] at h
    obtain ⟨h1, h2, h3, h4, h5, h6, h7, h8⟩ := h
    simp [set_ant_dir, toupper_eq_L, toupper_eq_U, toupper_eq_R, toupper_eq_D,
      h1, h2, h3, h4, h5, h6, h7, h8]
  · simp [set_ant_dir]

theorem set_ant_dir_table_witness :
    set_ant_dir
        { pos := { y := 1, x := 2 }, dir := { y := 7, x := 7 },
          screen_pos := { y := 3, x := 4 } } 'u'
      = { pos := { y := 1, x := 2 }, dir := { y := -1, x := 0 },
          screen_pos := { y := 3, x := 4 } } ∧
    set_ant_dir
        { pos := { y := 1, x := 2 }, dir := { y := 7, x := 7 },
          screen_pos := { y := 3, x := 4 } } 'x'
      = { pos := { y := 1, x := 2 }, dir := { y := 7, x := 7 },
          screen_pos := { y := 3, x := 4 } } :=
  ⟨(set_ant_dir_table
      { pos := { y := 1, x := 2 }, dir := { y := 7, x := 7 },
        screen_pos := { y := 3, x := 4 } } 'u').2.1 (by decide),
   (set_ant_dir_table
      { pos := { y := 1, x := 2 }, dir := { y := 7, x := 7 },
        screen_pos := { y := 3, x := 4 } } 'x').2.2.2.2.1 (by decide)⟩

/-! ## The invariant of the main loop -/

theorem session_inv_of_same (dir : Char) (L : Int) (s s1 : Session)
    (h : session_inv dir L s)
    (hd : s1.main_ant.dir = s.main_ant.dir) (hp : s1.main_ant.pos = s.main_ant.pos)
    (hg : s1.grid = s.grid) (hc : s1.step_count = s.step_count)
    (hs : s1.state ≠ game_state.GAME_OVER → s.state ≠ game_state.GAME_OVER) :
    session_inv dir L s1 := by
  obtain ⟨h1, h2, h3, h4⟩ := h
  refine ⟨hd ▸ h1, hg ▸ h2, ?_, hc ▸ h4⟩
  intro hne
  rw [hp]
  exact h3 (hs hne)

theorem refresh_inv (dir : Char) (L : Int) (s : Session) (h : session_inv dir L s) :
    session_inv dir L (refresh s) :=
  session_inv_of_same dir L s (refresh s) h rfl rfl rfl rfl (fun h => h)

theorem reset_session_grid (dir : Char) (s : Session) :
    (reset_session dir s).grid = init_grid s.grid := by
  simp only [reset_session]

theorem reset_session_pos (dir : Char) (s : Session) :
    (reset_session dir s).main_ant.pos = { y := 100, x := 100 } := by
  simp only [reset_session, (set_ant_dir_pos _ dir).1, set_point]
  decide

theorem reset_session_dir (dir : Char) (s : Session) :
    (reset_session dir s).main_ant.dir
      = (set_ant_dir { s.main_ant with pos := { y := 100, x := 100 } } dir).dir := by
  simp only [reset_session, set_point]
  rfl

theorem reset_session_fields (dir : Char) (s : Session) :
    (reset_session dir s).state = game_state.RUNNING ∧
    (reset_session dir s).step_count = 0 := by
  simp only [reset_session, and_self]

theorem reset_session_inv (L : Int) (dir : Char) (s : Session) (hL : 0 < L) :
    session_inv dir L (reset_session dir s) := by
  refine ⟨?_, ?_, ?_, ?_⟩
  · intro hdir
    rw [reset_session_dir]
    exact set_ant_dir_heading _ dir hdir
  · intro y x hyx
    rw [reset_session_grid, init_grid_apply, if_pos hyx]
    exact ⟨le_refl _, hL⟩
  · intro _
    rw [reset_session_pos]
    decide
  · rw [(reset_session_fields dir s).2]
    exact Nat.zero_le _

theorem check_flags_inv (L : Int) (dir : Char) (s : Session) (refresh_screen reset : Bool)
    (hL : 0 < L) (h : session_inv dir L s) :
    session_inv dir L (check_flags dir s refresh_screen reset) := by
  unfold check_flags
  cases reset <;> cases refresh_screen <;> simp only [if_true, if_false, Bool.false_eq_true]
  · exact h
  · exact refresh_inv dir L s h
  · exact refresh_inv dir L _ (reset_session_inv L dir s hL)
  · exact refresh_inv dir L _ (reset_session_inv L dir s hL)

/-- A tick in state `RUNNING` with the ant inside the grid: `update_grid` returns and
the branch ends either at the flag checks with the counter advanced, or at the
`continue` with the game over. -/
theorem running_tick (pattern : List Char) (s : Session)
    (hin : in_grid s.main_ant.pos.y s.main_ant.pos.x) :
    ∃ (grid1 : Grid) (ant1 : ant),
      update_grid s.grid s.main_ant pattern = some (grid1, ant1) ∧
      running_branch pattern s Key.ERR =
        if in_grid ant1.pos.y ant1.pos.x then
          some (.flags
            { s with
              grid := grid1, main_ant := ant1,
              step_count :=
                if s.step_count < UINT_MAX then (s.step_count + 1) % 2 ^ 32
                else s.step_count } true false)
        else
          some (.continue_loop
            { s with grid := grid1, main_ant := ant1, state := game_state.GAME_OVER }) := by
  refine ⟨_, _, update_grid_eq s.grid s.main_ant pattern hin, ?_⟩
  simp only [running_branch, if_true, update_grid_eq s.grid s.main_ant pattern hin]
  generalize add_points s.main_ant.pos (rotate_ant s.main_ant
    (s.grid s.main_ant.pos.y s.main_ant.pos.x) pattern).dir = q
  by_cases hnew : in_grid q.y q.x
  · have hout : ¬ (q.y < 0 ∨ q.y ≥ GRID_SIZE_Y ∨ q.x < 0 ∨ q.x ≥ GRID_SIZE_X) := by
      unfold in_grid at hnew; omega
    simp only [hout, hnew, if_true, if_false]
    split_ifs <;> rfl
  · have hout : q.y < 0 ∨ q.y ≥ GRID_SIZE_Y ∨ q.x < 0 ∨ q.x ≥ GRID_SIZE_X := by
      unfold in_grid at hnew; omega
    simp only [hout, hnew, if_true, if_false]

/-- A step of the automaton keeps the direction a heading and the colours below the
pattern length. -/
theorem update_grid_keeps (grid grid1 : Grid) (a a1 : ant) (pattern : List Char)
    (hlen : 0 < pattern.length)
    (hg : grid_below grid pattern.length) (hin : in_grid a.pos.y a.pos.x)
    (h : update_grid grid a pattern = some (grid1, a1)) :
    (is_heading a.dir → is_heading a1.dir) ∧ grid_below grid1 pattern.length := by
  rw [update_grid_eq grid a pattern hin] at h
  simp only [Option.some.injEq, Prod.mk.injEq] at h
  obtain ⟨h1, h2⟩ := h
  subst h1 h2
  refine ⟨fun hd => rotate_ant_heading a _ pattern hd, ?_⟩
  have hv := hg _ _ hin
  have hL : (0 : Int) < (pattern.length : Int) := by omega
  obtain ⟨t1, t2, _⟩ := tmod_succ_below (grid a.pos.y a.pos.x) pattern.length hv.1 hL
  exact grid_set_below grid _ _ _ _ hg ⟨t1, t2⟩

theorem running_branch_inv (dir : Char) (pattern : List Char) (s : Session) (ch : Key)
    (hlen : 0 < pattern.length) (hrun : s.state = game_state.RUNNING)
    (h : session_inv dir pattern.length s) :
    ∃ o, running_branch pattern s ch = some o ∧
      session_inv dir pattern.length o.session := by
  have hin : in_grid s.main_ant.pos.y s.main_ant.pos.x := h.2.2.1 (by rw [hrun]; decide)
  by_cases hch : ch = Key.ERR
  · subst hch
    obtain ⟨grid1, ant1, hu, hr⟩ := running_tick pattern s hin
    obtain ⟨k1, k2⟩ := update_grid_keeps s.grid grid1 s.main_ant ant1 pattern hlen h.2.1 hin hu
    have k3 : dir ∈ heading_tokens → is_heading ant1.dir := fun hd => k1 (h.1 hd)
    rw [hr]
    split_ifs with hnew hcount
    · refine ⟨_, rfl, k3, k2, fun _ => hnew, ?_⟩
      show (s.step_count + 1) % 2 ^ 32 ≤ UINT_MAX
      unfold UINT_MAX at hcount ⊢
      omega
    · exact ⟨_, rfl, k3, k2, fun _ => hnew, h.2.2.2⟩
    · exact ⟨_, rfl, k3, k2, fun hne => absurd rfl hne, h.2.2.2⟩
  · have hkeep : ∀ s1 : Session, s1.main_ant = s.main_ant → s1.grid = s.grid →
        s1.step_count = s.step_count → session_inv dir pattern.length s1 := by
      intro s1 e1 e2 e3
      refine ⟨e1 ▸ h.1, e2 ▸ h.2.1, fun _ => e1 ▸ hin, e3 ▸ h.2.2.2⟩
    simp only [running_branch, hch, if_false]
    split_ifs <;> exact ⟨_, rfl, hkeep _ rfl rfl rfl⟩

theorem handle_key_inv (dir : Char) (pattern : List Char) (s : Session) (ch : Key)
    (hlen : 0 < pattern.length) (h : session_inv dir pattern.length s) :
    ∃ o, handle_key pattern s ch = some o ∧ session_inv dir pattern.length o.session := by
  have hkeep : ∀ s1 : Session, s1.main_ant = s.main_ant → s1.grid = s.grid →
      s1.step_count = s.step_count →
      (s1.state ≠ game_state.GAME_OVER → s.state ≠ game_state.GAME_OVER) →
      session_inv dir pattern.length s1 := by
    intro s1 e1 e2 e3 e4
    exact session_inv_of_same dir _ s s1 h (by rw [e1]) (by rw [e1]) e2 e3 e4
  have hrest : ∀ k : Key,
      ∃ o, (if k = Key.chr 'c' then
              some (Outcome.flags
                { s with grid_offset := update_offset s.grid_offset .ZERO } true false)
            else if k = Key.chr 'a' then
              some (Outcome.flags
                { s with grid_offset := center_ant s.main_ant s.row s.col s.grid_offset }
                true false)
            else
              match s.state with
              | .RUNNING => running_branch pattern s k
              | .PAUSED => some (paused_branch s k)
              | .GAME_OVER => some (game_over_branch s k)) = some o ∧
        session_inv dir pattern.length o.session := by
    intro k
    split_ifs
    · exact ⟨_, rfl, hkeep _ rfl rfl rfl (fun h => h)⟩
    · exact ⟨_, rfl, hkeep _ rfl rfl rfl (fun h => h)⟩
    · cases hst : s.state
      · exact running_branch_inv dir pattern s k hlen hst h
      · refine ⟨_, rfl, ?_⟩
        unfold paused_branch
        split_ifs
        · exact hkeep _ rfl rfl rfl (fun _ => by rw [hst]; decide)
        · exact h
      · refine ⟨_, rfl, ?_⟩
        unfold game_over_branch
        split_ifs <;> exact h
  cases ch with
  | KEY_RESIZE row col => exact ⟨_, rfl, hkeep _ rfl rfl rfl (fun h => h)⟩
  | KEY_LEFT => exact ⟨_, rfl, hkeep _ rfl rfl rfl (fun h => h)⟩
  | KEY_UP => exact ⟨_, rfl, hkeep _ rfl rfl rfl (fun h => h)⟩
  | KEY_RIGHT => exact ⟨_, rfl, hkeep _ rfl rfl rfl (fun h => h)⟩
  | KEY_DOWN => exact ⟨_, rfl, hkeep _ rfl rfl rfl (fun h => h)⟩
  | ERR => exact hrest Key.ERR
  | chr c => exact hrest (Key.chr c)
  | other code => exact hrest (Key.other code)

/-- One iteration of the main loop is defined on a session that satisfies the
invariant, and it re-establishes the invariant. -/
theorem loop_body_inv (dir : Char) (pattern : List Char) (s : Session) (ch : Key)
    (hlen : 0 < pattern.length) (h : session_inv dir pattern.length s) :
    ∃ s1, loop_body dir pattern s ch = some s1 ∧ session_inv dir pattern.length s1 := by
  obtain ⟨o, ho, hinv⟩ := handle_key_inv dir pattern s ch hlen h
  unfold loop_body
  rw [ho]
  cases o with
  | flags s1 refresh_screen reset =>
    exact ⟨_, rfl, check_flags_inv _ dir s1 refresh_screen reset (by omega) hinv⟩
  | continue_loop s1 => exact ⟨_, rfl, hinv⟩

/-- The main loop is defined on every sequence of keys from a session that satisfies
the invariant, and it ends in a session that satisfies it. -/
theorem main_loop_inv (dir : Char) (pattern : List Char) (keys : List Key)
    (hlen : 0 < pattern.length) :
    ∀ s : Session, session_inv dir pattern.length s →
      ∃ s1, main_loop dir pattern s keys = some s1 ∧
        session_inv dir pattern.length s1 := by
  induction keys with
  | nil => intro s h; exact ⟨s, rfl, h⟩
  | cons ch rest ih =>
    intro s h
    unfold main_loop
    split_ifs
    · exact ⟨s, rfl, h⟩
    · obtain ⟨s1, hs1, hinv⟩ := loop_body_inv dir pattern s ch hlen h
      rw [hs1]
      exact ih s1 hinv

/-- The session `main` builds before the loop satisfies the invariant. -/
theorem init_session_inv (L : Int) (dir : Char) (row col : Int) (ant0 : ant)
    (hL : 0 < L) : session_inv dir L (init_session dir row col ant0) := by
  refine ⟨?_, ?_, ?_, ?_⟩
  · intro hdir
    rw [init_session_dir]
    exact set_ant_dir_heading _ dir hdir
  · intro y x _
    rw [init_session_zero]
    exact ⟨le_refl _, hL⟩
  · intro _
    rw [init_session_pos]
    decide
  · rw [(init_session_fields dir row col ant0).2]
    exact Nat.zero_le _

/-- Every run of the main loop from the session `main` builds is defined and ends in
a session that satisfies the invariant. -/
theorem reachable_inv (dir : Char) (pattern : List Char) (row col : Int) (ant0 : ant)
    (keys : List Key) (hlen : 0 < pattern.length) :
    ∃ s, main_loop dir pattern (init_session dir row col ant0) keys = some s ∧
      session_inv dir pattern.length s :=
  main_loop_inv dir pattern keys hlen _
    (init_session_inv pattern.length dir row col ant0 (by omega))

/-! ## Claims on the session -/

/-- C6. For a heading token `L U R D` in either case and a valid pattern, every run of
the main loop from the session `main` builds, on any sequence of keys and ticks, is
defined and ends with the direction of the ant equal to one of `(0,-1)`, `(0,1)`,
`(-1,0)`, `(1,0)`; `set_ant_dir` establishes this for the token and `rotate_ant`
preserves it for every tile value and every list of pattern characters. -/
theorem direction_always_heading (dir : Char) (pattern : List Char) (row col : Int)
    (ant0 : ant) (keys : List Key)
    (hdir : dir ∈ heading_tokens) (hp : valid_pattern pattern) :
    (∃ s, main_loop dir pattern (init_session dir row col ant0) keys = some s ∧
      is_heading s.main_ant.dir) ∧
    (∀ a : ant, is_heading (set_ant_dir a dir).dir) ∧
    (∀ (a : ant) (tile_value : Int) (p : List Char),
      is_heading a.dir → is_heading (rotate_ant a tile_value p).dir) := by
  have hlen : 0 < pattern.length := by have := hp.1; omega
  obtain ⟨s, hs, hinv⟩ := reachable_inv dir pattern row col ant0 keys hlen
  exact ⟨⟨s, hs, hinv.1 hdir⟩, fun a => set_ant_dir_heading a dir hdir,
    fun a tile_value p h => rotate_ant_heading a tile_value p h⟩

theorem direction_always_heading_witness :
    ∃ s, main_loop 'd' "RLu".toList
        (init_session 'd' 24 80
          { pos := { y := 0, x := 0 }, dir := { y := 9, x := 9 },
            screen_pos := { y := 0, x := 0 } })
        [Key.ERR, Key.chr 'p', Key.ERR, Key.chr 'r', Key.ERR] = some s ∧
      is_heading s.main_ant.dir :=
  (direction_always_heading 'd' "RLu".toList 24 80
    { pos := { y := 0, x := 0 }, dir := { y := 9, x := 9 },
      screen_pos := { y := 0, x := 0 } }
    [Key.ERR, Key.chr 'p', Key.ERR, Key.chr 'r', Key.ERR]
    (by decide)
    (by unfold valid_pattern pattern_letters; decide)).1

/-- C7. For a valid pattern of length `L`, every run of the main loop from the
session `main` builds (all-zero grid), on any sequence of keys and ticks, is defined
and ends with every grid cell holding a value `v` with `0 <= v < L`; and on a tile
inside the grid `change_tile` returns having written a value below `L`, which is not
negative when the old value was not. -/
theorem colours_always_below_length (dir : Char) (pattern : List Char) (row col : Int)
    (ant0 : ant) (keys : List Key) (hp : valid_pattern pattern) :
    (∃ s, main_loop dir pattern (init_session dir row col ant0) keys = some s ∧
      ∀ y x, in_grid y x → 0 ≤ s.grid y x ∧ s.grid y x < (pattern.length : Int)) ∧
    (∀ (grid : Grid) (p : point), in_grid p.y p.x →
      ∃ grid1, change_tile grid p (strlen pattern) = some grid1 ∧
        grid1 p.y p.x < (pattern.length : Int) ∧
        (0 ≤ grid p.y p.x → 0 ≤ grid1 p.y p.x)) := by
  have hlen : 0 < pattern.length := by have := hp.1; omega
  have hL : (0 : Int) < (pattern.length : Int) := by omega
  obtain ⟨s, hs, hinv⟩ := reachable_inv dir pattern row col ant0 keys hlen
  refine ⟨⟨s, hs, hinv.2.1⟩, ?_⟩
  intro grid p hin
  refine ⟨_, change_tile_eq grid p _ hin, ?_, ?_⟩
  · simp only [grid_set, strlen, and_self, if_true]
    exact Int.tmod_lt_of_pos _ hL
  · intro h0
    simp only [grid_set, strlen, and_self, if_true]
    exact (tmod_succ_below _ _ h0 hL).1

theorem colours_always_below_length_witness :
    ∃ s, main_loop 'L' "RL".toList
        (init_session 'L' 24 80
          { pos := { y := 0, x := 0 }, dir := { y := 0, x := 0 },
            screen_pos := { y := 0, x := 0 } })
        [Key.ERR, Key.ERR, Key.KEY_LEFT, Key.ERR] = some s ∧
      ∀ y x, in_grid y x → 0 ≤ s.grid y x ∧ s.grid y x < (("RL".toList.length : Nat) : Int) :=
  (colours_always_below_length 'L' "RL".toList 24 80
    { pos := { y := 0, x := 0 }, dir := { y := 0, x := 0 },
      screen_pos := { y := 0, x := 0 } }
    [Key.ERR, Key.ERR, Key.KEY_LEFT, Key.ERR]
    (by unfold valid_pattern pattern_letters; decide)).1

/-- C10. Processing a tick never decreases `step_count` and never takes it past
`UINT_MAX = 2^32 - 1`.  From a session whose counter fits an `unsigned int` and whose
ant is inside the grid when the state is `RUNNING`, the iteration of the main loop on
a tick is defined; when the state is `RUNNING` and the step leaves the ant inside the
grid, the counter becomes `step_count + 1` if it was below `UINT_MAX` and stays
`UINT_MAX` if it was `UINT_MAX`; in every other case it is unchanged. -/
theorem tick_step_count (dir : Char) (pattern : List Char) (s : Session)
    (hcount : s.step_count ≤ UINT_MAX)
    (hin : s.state = game_state.RUNNING → in_grid s.main_ant.pos.y s.main_ant.pos.x) :
    ∃ s1, loop_body dir pattern s Key.ERR = some s1 ∧
      s.step_count ≤ s1.step_count ∧ s1.step_count ≤ UINT_MAX ∧
      (s.state = game_state.RUNNING → in_grid s1.main_ant.pos.y s1.main_ant.pos.x →
        s1.step_count = if s.step_count < UINT_MAX then s.step_count + 1 else UINT_MAX) ∧
      (¬ (s.state = game_state.RUNNING ∧ in_grid s1.main_ant.pos.y s1.main_ant.pos.x) →
        s1.step_count = s.step_count) := by
  cases hst : s.state
  · obtain ⟨grid1, ant1, _, hr⟩ := running_tick pattern s (hin hst)
    have hk : handle_key pattern s Key.ERR = running_branch pattern s Key.ERR := by
      simp [handle_key, hst]
    by_cases hnew : in_grid ant1.pos.y ant1.pos.x
    · rw [if_pos hnew] at hr
      have hbody : loop_body dir pattern s Key.ERR = some (refresh
          { s with
            grid := grid1, main_ant := ant1,
            step_count :=
              if s.step_count < UINT_MAX then (s.step_count + 1) % 2 ^ 32
              else s.step_count }) := by
        simp only [loop_body, hk, hr]
        rfl
      refine ⟨_, hbody, ?_⟩
      simp only [refresh, render_ant, set_point]
      unfold UINT_MAX at hcount ⊢
      refine ⟨?_, ?_, ?_, ?_⟩
      · split_ifs <;> omega
      · split_ifs <;> omega
      · intro _ _
        split_ifs <;> omega
      · intro hno
        exact absurd ⟨trivial, hnew⟩ hno
    · rw [if_neg hnew] at hr
      have hbody : loop_body dir pattern s Key.ERR = some
          { s with grid := grid1, main_ant := ant1, state := game_state.GAME_OVER } := by
        simp only [loop_body, hk, hr]
      refine ⟨_, hbody, le_refl _, hcount, ?_, ?_⟩
      · intro _ h2
        exact absurd h2 hnew
      · intro _
        rfl
  · refine ⟨s, ?_, le_refl _, hcount, ?_, ?_⟩
    · simp [loop_body, handle_key, hst, paused_branch, check_flags]
    · intro h; exact absurd h (by decide)
    · intro _; rfl
  · refine ⟨s, ?_, le_refl _, hcount, ?_, ?_⟩
    · simp [loop_body, handle_key, hst, game_over_branch, check_flags]
    · intro h; exact absurd h (by decide)
    · intro _; rfl

theorem tick_step_count_witness :
    ∃ s1, loop_body 'L' "RL".toList
        { state := game_state.RUNNING, row := 24, col := 80, step_count := 4294967295,
          grid := fun _ _ => 0, grid_offset := { y := 0, x := 0 },
          main_ant := { pos := { y := 100, x := 100 }, dir := { y := 0, x := -1 },
                        screen_pos := { y := 0, x := 0 } },
          delay := 5 } Key.ERR = some s1 ∧
      4294967295 ≤ s1.step_count ∧ s1.step_count ≤ UINT_MAX ∧
      (game_state.RUNNING = game_state.RUNNING →
        in_grid s1.main_ant.pos.y s1.main_ant.pos.x →
        s1.step_count = if 4294967295 < UINT_MAX then 4294967295 + 1 else UINT_MAX) ∧
      (¬ (game_state.RUNNING = game_state.RUNNING ∧
          in_grid s1.main_ant.pos.y s1.main_ant.pos.x) →
        s1.step_count = 4294967295) :=
  tick_step_count 'L' "RL".toList
    { state := game_state.RUNNING, row := 24, col := 80, step_count := 4294967295,
      grid := fun _ _ => 0, grid_offset := { y := 0, x := 0 },
      main_ant := { pos := { y := 100, x := 100 }, dir := { y := 0, x := -1 },
                    screen_pos := { y := 0, x := 0 } },
      delay := 5 }
    (by decide) (fun _ => by decide)

/-! ## The pattern check of `main` -/

theorem pattern_char_ok_iff (c : Char) : pattern_char_ok c = true ↔ c ∈ pattern_letters := by
  simp [pattern_char_ok, pattern_letters]
  tauto

theorem pattern_chars_ok_iff (s : List Char) :
    pattern_chars_ok s = true ↔ ∀ c ∈ s, c ∈ pattern_letters := by
  induction s with
  | nil => simp [pattern_chars_ok]
  | cons d rest ih =>
    unfold pattern_chars_ok
    by_cases hd : pattern_char_ok d = true
    · have hm := (pattern_char_ok_iff d).1 hd
      simp only [hd, if_true, ih, List.mem_cons, forall_eq_or_imp, hm, true_and]
    · have hm : d ∉ pattern_letters := fun h => hd ((pattern_char_ok_iff d).2 h)
      simp only [hd, if_false, List.mem_cons, forall_eq_or_imp, hm, false_and]
      simp

theorem check_pattern_iff (s : List Char) : check_pattern s = true ↔ valid_pattern s := by
  unfold check_pattern valid_pattern MAX_COLORS
  by_cases hlen : s.length < 2 ∨ s.length > 16
  · simp only [hlen, if_true]
    constructor
    · intro h; exact absurd h (by decide)
    · rintro ⟨h1, h2, _⟩; omega
  · simp only [hlen, if_false, pattern_chars_ok_iff]
    constructor
    · intro h; exact ⟨by omega, by omega, h⟩
    · rintro ⟨_, _, h⟩; exact h

/-- C8. The pattern check of `main` passes exactly for the strings of length 2 to 16
whose characters are all among `L l R r U u N n`.  An argument that reaches the
pattern branch of the argument loop and fails this makes `main` return 1 whatever the
buffers hold; one that passes it is upper-cased into the (empty) pattern buffer and
the loop goes on.  When the only argument is such a failing string (`X`, any string of
length 1 or of length 17, ...) other than `-h` and `--help`, `main` returns 1, and a
return from the argument handling happens before the session is built. -/
theorem pattern_check_accepts_iff_valid :
    (∀ s : List Char, check_pattern s = true ↔
      (2 ≤ s.length ∧ s.length ≤ 16 ∧ ∀ c ∈ s, c ∈ pattern_letters)) ∧
    (∀ (s : List Char) (rest : List (List Char)) (dir pattern : List Char),
      s ≠ "-d".toList → ¬ valid_pattern s →
      parse_args_from (s :: rest) dir pattern = Except.error 1) ∧
    (∀ (s : List Char) (rest : List (List Char)) (dir : List Char),
      valid_pattern s →
      parse_args_from (s :: rest) dir [] = parse_args_from rest dir (str_toupper s)) ∧
    (∀ (prog s dir0 pattern0 : List Char) (has_colors : Bool) (row col : Int) (ant0 : ant),
      ¬ valid_pattern s → s ≠ "-h".toList → s ≠ "--help".toList →
      main_start [prog, s] dir0 pattern0 has_colors row col ant0 = Except.error 1) ∧
    (∀ (argv : List (List Char)) (dir0 pattern0 : List Char) (has_colors : Bool)
      (row col : Int) (ant0 : ant) (n : Nat),
      parse_args argv dir0 pattern0 = Except.error n →
      main_start argv dir0 pattern0 has_colors row col ant0 = Except.error n) := by
  have hbad : ∀ (s : List Char) (rest : List (List Char)) (dir pattern : List Char),
      s ≠ "-d".toList → ¬ valid_pattern s →
      parse_args_from (s :: rest) dir pattern = Except.error 1 := by
    intro s rest dir pattern hd hv
    have hc : check_pattern s = false := by
      cases h : check_pattern s
      · rfl
      · exact absurd ((check_pattern_iff s).1 h) hv
    unfold parse_args_from
    simp only [hd, if_false, hc, Bool.not_false, if_true]
    split_ifs <;> rfl
  refine ⟨fun s => check_pattern_iff s, hbad, ?_, ?_, ?_⟩
  · intro s rest dir hv
    have hc : check_pattern s = true := (check_pattern_iff s).2 hv
    have hd : s ≠ "-d".toList := by
      intro h
      have := hv.2.2 '-' (by rw [h]; decide)
      exact absurd this (by decide)
    have hd2 : ¬ s = ['-', 'd'] := hd
    conv_lhs => unfold parse_args_from
    simp [hd2, hc]
  · intro prog s dir0 pattern0 has_colors row col ant0 hv h1 h2
    have hloop : parse_args_from [s] dir0 pattern0 = Except.error 1 := by
      by_cases hd : s = "-d".toList
      · unfold parse_args_from
        simp only [hd, if_true]
        split_ifs <;> rfl
      · exact hbad s [] dir0 pattern0 hd hv
    have hp : parse_args [prog, s] dir0 pattern0 = Except.error 1 := by
      have h3 : ¬ s = ['-', 'h'] := h1
      have h4 : ¬ s = ['-', '-', 'h', 'e', 'l', 'p'] := h2
      unfold parse_args
      simp [h3, h4, hloop]
    unfold main_start
    rw [hp]
  · intro argv dir0 pattern0 has_colors row col ant0 n h
    unfold main_start
    rw [h]

theorem pattern_check_accepts_iff_valid_witness :
    check_pattern "Rl".toList = true ∧
    main_start ["langtons_ant".toList, "X".toList] [] [] true 24 80
        { pos := { y := 0, x := 0 }, dir := { y := 0, x := 0 },
          screen_pos := { y := 0, x := 0 } } = Except.error 1 ∧
    parse_args_from ["LLRRRLRLRLLRLLLRR".toList] [] [] = Except.error 1 :=
  ⟨(pattern_check_accepts_iff_valid.1 "Rl".toList).2 (by decide),
   pattern_check_accepts_iff_valid.2.2.2.1 "langtons_ant".toList "X".toList [] [] true 24 80
     { pos := { y := 0, x := 0 }, dir := { y := 0, x := 0 },
       screen_pos := { y := 0, x := 0 } }
     (by unfold valid_pattern; decide) (by decide) (by decide),
   pattern_check_accepts_iff_valid.2.1 "LLRRRLRLRLLRLLLRR".toList [] [] []
     (by decide) (by unfold valid_pattern; decide)⟩

/-! ## One iteration of the main loop, key by key -/

/-- The iteration on a tick in state `RUNNING` with the ant inside the grid:
`update_grid` returns, and the iteration ends after the redraw with the counter
advanced when the ant is still inside, at the `continue` with the game over when it
is not. -/
theorem loop_body_tick (dir : Char) (pattern : List Char) (s : Session)
    (hst : s.state = game_state.RUNNING)
    (hin : in_grid s.main_ant.pos.y s.main_ant.pos.x) :
    ∃ (grid1 : Grid) (ant1 : ant),
      update_grid s.grid s.main_ant pattern = some (grid1, ant1) ∧
      loop_body dir pattern s Key.ERR =
        if in_grid ant1.pos.y ant1.pos.x then
          some (refresh
            { s with
              grid := grid1, main_ant := ant1,
              step_count :=
                if s.step_count < UINT_MAX then (s.step_count + 1) % 2 ^ 32
                else s.step_count })
        else
          some { s with grid := grid1, main_ant := ant1, state := game_state.GAME_OVER } := by
  obtain ⟨grid1, ant1, hu, hr⟩ := running_tick pattern s hin
  have hk : handle_key pattern s Key.ERR = running_branch pattern s Key.ERR := by
    simp [handle_key, hst]
  refine ⟨grid1, ant1, hu, ?_⟩
  by_cases hnew : in_grid ant1.pos.y ant1.pos.x
  · rw [if_pos hnew] at hr
    simp only [loop_body, hk, hr, if_pos hnew]
    rfl
  · rw [if_neg hnew] at hr
    simp only [loop_body, hk, hr, if_neg hnew]

/-- The iteration on the key `r` in the states `RUNNING` and `GAME_OVER`: the reset
block runs, then the redraw. -/
theorem loop_body_restart (dir : Char) (pattern : List Char) (s : Session)
    (hst : s.state = game_state.RUNNING ∨ s.state = game_state.GAME_OVER) :
    loop_body dir pattern s (Key.chr 'r') = some (refresh (reset_session dir s)) := by
  rcases hst with hst | hst <;>
    simp [loop_body, handle_key, hst, running_branch, game_over_branch, check_flags]

/-- The iteration in state `PAUSED` on a tick or a character other than `p`, `c` and
`a`: nothing is assigned. -/
theorem loop_body_paused (dir : Char) (pattern : List Char) (s : Session) (ch : Key)
    (hst : s.state = game_state.PAUSED)
    (hch : ch = Key.ERR ∨ ∃ c, ch = Key.chr c ∧ c ≠ 'p' ∧ c ≠ 'c' ∧ c ≠ 'a') :
    loop_body dir pattern s ch = some s := by
  rcases hch with rfl | ⟨c, rfl, h1, h2, h3⟩
  · simp [loop_body, handle_key, hst, paused_branch, check_flags]
  · simp [loop_body, handle_key, hst, paused_branch, check_flags, h1, h2, h3]

/-- The iteration on the key `p`: `RUNNING` becomes `PAUSED`, `PAUSED` becomes
`RUNNING`, and nothing else is assigned. -/
theorem loop_body_pause (dir : Char) (pattern : List Char) (s : Session) :
    (s.state = game_state.RUNNING →
      loop_body dir pattern s (Key.chr 'p') = some { s with state := game_state.PAUSED }) ∧
    (s.state = game_state.PAUSED →
      loop_body dir pattern s (Key.chr 'p') = some { s with state := game_state.RUNNING }) := by
  constructor <;> intro hst <;>
    simp [loop_body, handle_key, hst, running_branch, paused_branch, check_flags]

/-! ## Claims on the state machine -/

/-- C11. A tick processed in state `RUNNING`, with the ant inside a grid whose cells
are in `[0, L)`, is defined and leaves the grid and the ant as `update_grid` returns
them.  When the new position has its row or column outside `[0, 201)`, the state
becomes `GAME_OVER`, `step_count` is not incremented, and the tile the ant left
already holds `(old + 1) mod L`; when the new position is inside the grid the state
stays `RUNNING`. -/
theorem tick_out_of_bounds_ends_game (dir : Char) (pattern : List Char) (s : Session)
    (hlen : 2 ≤ pattern.length ∧ pattern.length ≤ 16)
    (hst : s.state = game_state.RUNNING)
    (hg : grid_below s.grid pattern.length)
    (hin : in_grid s.main_ant.pos.y s.main_ant.pos.x) :
    ∃ (grid1 : Grid) (ant1 : ant) (s1 : Session),
      update_grid s.grid s.main_ant pattern = some (grid1, ant1) ∧
      loop_body dir pattern s Key.ERR = some s1 ∧
      s1.grid = grid1 ∧ s1.main_ant.pos = ant1.pos ∧ s1.main_ant.dir = ant1.dir ∧
      ((ant1.pos.y < 0 ∨ 201 ≤ ant1.pos.y ∨ ant1.pos.x < 0 ∨ 201 ≤ ant1.pos.x) →
        s1.state = game_state.GAME_OVER ∧ s1.step_count = s.step_count ∧
        s1.grid s.main_ant.pos.y s.main_ant.pos.x
          = (s.grid s.main_ant.pos.y s.main_ant.pos.x + 1) % (pattern.length : Int)) ∧
      (in_grid ant1.pos.y ant1.pos.x → s1.state = game_state.RUNNING) := by
  obtain ⟨grid1, ant1, hu, hb⟩ := loop_body_tick dir pattern s hst hin
  have hcell : grid1 s.main_ant.pos.y s.main_ant.pos.x
      = (s.grid s.main_ant.pos.y s.main_ant.pos.x + 1) % (pattern.length : Int) := by
    have h1 := hu
    rw [update_grid_eq s.grid s.main_ant pattern hin] at h1
    simp only [Option.some.injEq, Prod.mk.injEq] at h1
    rw [← h1.1]
    have hv := hg _ _ hin
    have hL : (0 : Int) < (pattern.length : Int) := by omega
    simp [grid_set, strlen, (tmod_succ_below _ _ hv.1 hL).2.2]
  by_cases hnew : in_grid ant1.pos.y ant1.pos.x
  · rw [if_pos hnew] at hb
    refine ⟨grid1, ant1, _, hu, hb, rfl, rfl, rfl, ?_, fun _ => hst⟩
    intro hout
    unfold in_grid GRID_SIZE_Y GRID_SIZE_X at hnew
    omega
  · rw [if_neg hnew] at hb
    refine ⟨grid1, ant1, _, hu, hb, rfl, rfl, rfl, fun _ => ⟨rfl, rfl, hcell⟩, ?_⟩
    intro h
    exact absurd h hnew

theorem tick_out_of_bounds_ends_game_witness :
    ∃ (grid1 : Grid) (ant1 : ant) (s1 : Session),
      update_grid (fun _ _ => 1)
        { pos := { y := 0, x := 5 }, dir := { y := 0, x := 1 },
          screen_pos := { y := 0, x := 0 } } "RL".toList = some (grid1, ant1) ∧
      loop_body 'L' "RL".toList
        { state := game_state.RUNNING, row := 24, col := 80, step_count := 41,
          grid := fun _ _ => 1, grid_offset := { y := 0, x := 0 },
          main_ant := { pos := { y := 0, x := 5 }, dir := { y := 0, x := 1 },
                        screen_pos := { y := 0, x := 0 } },
          delay := 5 } Key.ERR = some s1 ∧
      s1.grid = grid1 ∧ s1.main_ant.pos = ant1.pos ∧ s1.main_ant.dir = ant1.dir ∧
      ((ant1.pos.y < 0 ∨ 201 ≤ ant1.pos.y ∨ ant1.pos.x < 0 ∨ 201 ≤ ant1.pos.x) →
        s1.state = game_state.GAME_OVER ∧ s1.step_count = 41 ∧
        s1.grid 0 5 = ((fun _ _ => 1 : Grid) 0 5 + 1) % (("RL".toList.length : Nat) : Int)) ∧
      (in_grid ant1.pos.y ant1.pos.x → s1.state = game_state.RUNNING) :=
  tick_out_of_bounds_ends_game 'L' "RL".toList
    { state := game_state.RUNNING, row := 24, col := 80, step_count := 41,
      grid := fun _ _ => 1, grid_offset := { y := 0, x := 0 },
      main_ant := { pos := { y := 0, x := 5 }, dir := { y := 0, x := 1 },
                    screen_pos := { y := 0, x := 0 } },
      delay := 5 }
    (by decide) rfl
    (by
      intro y x _
      show (0 : Int) ≤ 1 ∧ (1 : Int) < ((2 : Nat) : Int)
      decide)
    (by decide)

/-- For a heading token the direction `set_ant_dir` sets does not depend on the ant
it is given. -/
theorem set_ant_dir_same (a b : ant) (dir : Char) (h : dir ∈ heading_tokens) :
    (set_ant_dir a dir).dir = (set_ant_dir b dir).dir := by
  simp only [heading_tokens, List.mem_cons, List.mem_singleton, List.not_mem_nil,
    or_false] at h
  rcases h with rfl | rfl | rfl | rfl | rfl | rfl | rfl | rfl <;>
    simp [set_ant_dir, set_point, NUL, toupper_eq_L, toupper_eq_U, toupper_eq_R,
      toupper_eq_D]

/-- The screen position `render_ant` stores depends on the ant through its grid
position only. -/
theorem render_ant_congr (a b : ant) (row col : Int) (off : point)
    (hp : a.pos = b.pos) (hd : a.dir = b.dir) :
    render_ant a row col off = render_ant b row col off := by
  obtain ⟨ap, ad, asp⟩ := a
  obtain ⟨bp, bd, bsp⟩ := b
  simp only at hp hd
  subst hp hd
  simp [render_ant, set_point]

/-- The session after a restart, field by field. -/
theorem restart_fields (dir : Char) (s : Session) :
    (refresh (reset_session dir s)).state = game_state.RUNNING ∧
    (refresh (reset_session dir s)).step_count = 0 ∧
    (refresh (reset_session dir s)).grid = init_grid s.grid ∧
    (refresh (reset_session dir s)).grid_offset = { y := 0, x := 0 } ∧
    (refresh (reset_session dir s)).delay = 5 ∧
    (refresh (reset_session dir s)).row = s.row ∧
    (refresh (reset_session dir s)).col = s.col ∧
    (refresh (reset_session dir s)).main_ant
      = render_ant (set_ant_dir { s.main_ant with pos := { y := 100, x := 100 } } dir)
          s.row s.col { y := 0, x := 0 } := by
  simp only [refresh, reset_session, update_offset, set_point, true_and]
  rfl

/-- The session at the start of the main loop, field by field. -/
theorem init_session_rest (dir : Char) (row col : Int) (ant0 : ant) :
    (init_session dir row col ant0).grid_offset = { y := 0, x := 0 } ∧
    (init_session dir row col ant0).delay = 5 ∧
    (init_session dir row col ant0).row = row ∧
    (init_session dir row col ant0).col = col ∧
    (init_session dir row col ant0).main_ant
      = render_ant (set_ant_dir { ant0 with pos := { y := 100, x := 100 } } dir)
          row col { y := 0, x := 0 } := by
  simp only [init_session, update_offset, set_point, true_and]
  rfl

/-- C12. When the key `r` is processed in state `GAME_OVER`, and likewise in state
`RUNNING`, the iteration is defined and the resulting session is the initial session
of the same configuration (heading token `dir`, terminal size of the session): state
`RUNNING`, `step_count` 0, every grid cell 0, the ant at `(100,100)` with the
direction `set_ant_dir` gives for `dir`; the ant, the grid offset, the delay and
every cell agree with those of `init_session`.  The pattern and the heading token
are not variables of the loop and stay as they are. -/
theorem restart_gives_initial_session (dir : Char) (pattern : List Char) (s : Session)
    (ant0 : ant) (hdir : dir ∈ heading_tokens)
    (hst : s.state = game_state.GAME_OVER ∨ s.state = game_state.RUNNING) :
    ∃ s1, loop_body dir pattern s (Key.chr 'r') = some s1 ∧
      s1.state = game_state.RUNNING ∧ s1.step_count = 0 ∧
      (∀ y x, in_grid y x → s1.grid y x = 0) ∧
      s1.main_ant.pos = { y := 100, x := 100 } ∧
      s1.main_ant.dir = (set_ant_dir s.main_ant dir).dir ∧
      s1.state = (init_session dir s.row s.col ant0).state ∧
      s1.step_count = (init_session dir s.row s.col ant0).step_count ∧
      (∀ y x, in_grid y x → s1.grid y x = (init_session dir s.row s.col ant0).grid y x) ∧
      s1.main_ant = (init_session dir s.row s.col ant0).main_ant ∧
      s1.grid_offset = (init_session dir s.row s.col ant0).grid_offset ∧
      s1.delay = (init_session dir s.row s.col ant0).delay ∧
      s1.row = (init_session dir s.row s.col ant0).row ∧
      s1.col = (init_session dir s.row s.col ant0).col := by
  have hb := loop_body_restart dir pattern s (Or.symm hst)
  obtain ⟨f1, f2, f3, f4, f5, f6, f7, f8⟩ := restart_fields dir s
  obtain ⟨i1, i2, i3, i4, i5⟩ := init_session_rest dir s.row s.col ant0
  obtain ⟨j1, j2⟩ := init_session_fields dir s.row s.col ant0
  have hzero : ∀ y x, in_grid y x → (refresh (reset_session dir s)).grid y x = 0 := by
    intro y x hyx
    rw [f3, init_grid_apply, if_pos hyx]
  have hant : (refresh (reset_session dir s)).main_ant
      = (init_session dir s.row s.col ant0).main_ant := by
    rw [f8, i5]
    apply render_ant_congr
    · rw [(set_ant_dir_pos _ dir).1, (set_ant_dir_pos _ dir).1]
    · exact set_ant_dir_same _ _ dir hdir
  refine ⟨_, hb, f1, f2, hzero, ?_, ?_, ?_, ?_, ?_, hant, ?_, ?_, ?_, ?_⟩
  · rw [hant, init_session_pos]
  · rw [hant, init_session_dir]
    exact set_ant_dir_same _ _ dir hdir
  · rw [f1, j1]
  · rw [f2, j2]
  · intro y x hyx
    rw [hzero y x hyx, init_session_zero]
  · rw [f4, i1]
  · rw [f5, i2]
  · rw [f6, i3]
  · rw [f7, i4]

theorem restart_gives_initial_session_witness :
    ∃ s1, loop_body 'u' "RL".toList
        { state := game_state.GAME_OVER, row := 24, col := 80, step_count := 9,
          grid := fun _ _ => 1, grid_offset := { y := 3, x := 4 },
          main_ant := { pos := { y := -1, x := 7 }, dir := { y := -1, x := 0 },
                        screen_pos := { y := 5, x := 6 } },
          delay := 1 } (Key.chr 'r') = some s1 ∧
      s1.state = game_state.RUNNING ∧ s1.step_count = 0 ∧
      (∀ y x, in_grid y x → s1.grid y x = 0) ∧
      s1.main_ant.pos = { y := 100, x := 100 } :=
  match restart_gives_initial_session 'u' "RL".toList
    { state := game_state.GAME_OVER, row := 24, col := 80, step_count := 9,
      grid := fun _ _ => 1, grid_offset := { y := 3, x := 4 },
      main_ant := { pos := { y := -1, x := 7 }, dir := { y := -1, x := 0 },
                    screen_pos := { y := 5, x := 6 } },
      delay := 1 }
    { pos := { y := 0, x := 0 }, dir := { y := 0, x := 0 },
      screen_pos := { y := 0, x := 0 } }
    (by decide) (Or.inl rfl) with
  | ⟨s1, h1, h2, h3, h4, h5, _⟩ => ⟨s1, h1, h2, h3, h4, h5⟩

/-- C13, as it is written, fails: in state `PAUSED`, with `step_count` 7 and a
coloured grid, the key `r` leaves the session `PAUSED` with `step_count` 7; it does
not make it `RUNNING` with `step_count` 0. -/
theorem restart_when_paused_not_running :
    (loop_body 'L' "RL".toList
        { state := game_state.PAUSED, row := 24, col := 80, step_count := 7,
          grid := fun _ _ => 1, grid_offset := { y := 0, x := 0 },
          main_ant := { pos := { y := 90, x := 95 }, dir := { y := 1, x := 0 },
                        screen_pos := { y := 0, x := 0 } },
          delay := 5 } (Key.chr 'r')).map
        (fun s1 => (s1.state, s1.step_count, s1.main_ant.pos, s1.grid 100 100))
      = some (game_state.PAUSED, 7, { y := 90, x := 95 }, 1) ∧
    ¬ ∃ s1, loop_body 'L' "RL".toList
        { state := game_state.PAUSED, row := 24, col := 80, step_count := 7,
          grid := fun _ _ => 1, grid_offset := { y := 0, x := 0 },
          main_ant := { pos := { y := 90, x := 95 }, dir := { y := 1, x := 0 },
                        screen_pos := { y := 0, x := 0 } },
          delay := 5 } (Key.chr 'r') = some s1 ∧
      s1.state = game_state.RUNNING ∧ s1.step_count = 0 := by
  rw [loop_body_paused 'L' "RL".toList _ (Key.chr 'r') rfl
    (Or.inr ⟨'r', rfl, by decide, by decide, by decide⟩)]
  refine ⟨rfl, ?_⟩
  rintro ⟨s1, h, hrun, _⟩
  simp only [Option.some.injEq] at h
  rw [← h] at hrun
  exact absurd hrun (by decide)

/-- C13, amended.  When the key `r` is processed in state `PAUSED` nothing happens:
the iteration is defined and returns the session as it was, so the state stays
`PAUSED` and the grid, the ant and `step_count` are unchanged.  (The restart is taken
in the states `RUNNING` and `GAME_OVER` only.) -/
theorem restart_ignored_when_paused (dir : Char) (pattern : List Char) (s : Session)
    (hst : s.state = game_state.PAUSED) :
    loop_body dir pattern s (Key.chr 'r') = some s ∧
    ∀ s1, loop_body dir pattern s (Key.chr 'r') = some s1 →
      s1.state = game_state.PAUSED ∧ s1.grid = s.grid ∧ s1.main_ant = s.main_ant ∧
      s1.step_count = s.step_count := by
  have hb := loop_body_paused dir pattern s (Key.chr 'r') hst
    (Or.inr ⟨'r', rfl, by decide, by decide, by decide⟩)
  refine ⟨hb, ?_⟩
  intro s1 h1
  rw [hb] at h1
  simp only [Option.some.injEq] at h1
  subst h1
  exact ⟨hst, rfl, rfl, rfl⟩

theorem restart_ignored_when_paused_witness :
    loop_body 'L' "RL".toList
        { state := game_state.PAUSED, row := 24, col := 80, step_count := 7,
          grid := fun _ _ => 1, grid_offset := { y := 0, x := 0 },
          main_ant := { pos := { y := 90, x := 95 }, dir := { y := 1, x := 0 },
                        screen_pos := { y := 0, x := 0 } },
          delay := 5 } (Key.chr 'r')
      = some
        { state := game_state.PAUSED, row := 24, col := 80, step_count := 7,
          grid := fun _ _ => 1, grid_offset := { y := 0, x := 0 },
          main_ant := { pos := { y := 90, x := 95 }, dir := { y := 1, x := 0 },
                        screen_pos := { y := 0, x := 0 } },
          delay := 5 } :=
  (restart_ignored_when_paused 'L' "RL".toList
    { state := game_state.PAUSED, row := 24, col := 80, step_count := 7,
      grid := fun _ _ => 1, grid_offset := { y := 0, x := 0 },
      main_ant := { pos := { y := 90, x := 95 }, dir := { y := 1, x := 0 },
                    screen_pos := { y := 0, x := 0 } },
      delay := 5 } rfl).1

/-- The iteration in state `GAME_OVER` on a key other than `r`: either nothing is
assigned, or the terminal size or the grid offset is, followed by the redraw; the
pattern is not used. -/
theorem loop_body_game_over (dir : Char) (pattern : List Char) (s : Session) (ch : Key)
    (hst : s.state = game_state.GAME_OVER) (hch : ch ≠ Key.chr 'r') :
    loop_body dir pattern s ch = some s ∨
    ∃ (row col : Int) (off : point),
      loop_body dir pattern s ch
        = some (refresh { s with row := row, col := col, grid_offset := off }) := by
  cases ch with
  | KEY_RESIZE row col => exact Or.inr ⟨row, col, s.grid_offset, rfl⟩
  | KEY_LEFT => exact Or.inr ⟨s.row, s.col, _, rfl⟩
  | KEY_UP => exact Or.inr ⟨s.row, s.col, _, rfl⟩
  | KEY_RIGHT => exact Or.inr ⟨s.row, s.col, _, rfl⟩
  | KEY_DOWN => exact Or.inr ⟨s.row, s.col, _, rfl⟩
  | ERR =>
    left
    simp [loop_body, handle_key, hst, game_over_branch, check_flags]
  | chr c =>
    have hr : c ≠ 'r' := fun h => hch (by rw [h])
    by_cases hc : c = 'c'
    · right
      refine ⟨s.row, s.col, update_offset s.grid_offset .ZERO, ?_⟩
      simp [loop_body, handle_key, hc, check_flags]
    · by_cases ha : c = 'a'
      · right
        refine ⟨s.row, s.col, center_ant s.main_ant s.row s.col s.grid_offset, ?_⟩
        simp [loop_body, handle_key, ha, check_flags]
      · left
        simp [loop_body, handle_key, hst, game_over_branch, check_flags, hc, ha, hr]
  | other code =>
    left
    simp [loop_body, handle_key, hst, game_over_branch, check_flags]

/-- C14. `GAME_OVER` is absorbing except for restart: for every key or tick other
than `r`, the iteration in state `GAME_OVER` is defined, leaves the state
`GAME_OVER` and leaves the grid, the position and the direction of the ant and
`step_count` unchanged; the result is the same for every pattern, the step of the
automaton not being run (it is not defined with the ant outside the grid, and the
iteration is). -/
theorem game_over_absorbing (dir : Char) (pattern : List Char) (s : Session) (ch : Key)
    (hst : s.state = game_state.GAME_OVER) (hch : ch ≠ Key.chr 'r') :
    ∃ s1, loop_body dir pattern s ch = some s1 ∧
      s1.state = game_state.GAME_OVER ∧ s1.grid = s.grid ∧
      s1.main_ant.pos = s.main_ant.pos ∧ s1.main_ant.dir = s.main_ant.dir ∧
      s1.step_count = s.step_count ∧
      ∀ pattern2 : List Char, loop_body dir pattern2 s ch = some s1 := by
  have hall : ∀ q : List Char, loop_body dir q s ch = loop_body dir pattern s ch := by
    intro q
    cases ch with
    | chr c =>
      by_cases hc : c = 'c'
      · simp [loop_body, handle_key, hc]
      · by_cases ha : c = 'a'
        · simp [loop_body, handle_key, ha]
        · simp [loop_body, handle_key, hst, hc, ha]
    | ERR => simp [loop_body, handle_key, hst]
    | other code => simp [loop_body, handle_key, hst]
    | KEY_RESIZE row col => rfl
    | KEY_LEFT => rfl
    | KEY_UP => rfl
    | KEY_RIGHT => rfl
    | KEY_DOWN => rfl
  rcases loop_body_game_over dir pattern s ch hst hch with h | ⟨row, col, off, h⟩
  · exact ⟨s, h, hst, rfl, rfl, rfl, rfl, fun q => by rw [hall q, h]⟩
  · exact ⟨_, h, hst, rfl, rfl, rfl, rfl, fun q => by rw [hall q, h]⟩

theorem game_over_absorbing_witness :
    ∃ s1, loop_body 'L' "RL".toList
        { state := game_state.GAME_OVER, row := 24, col := 80, step_count := 9,
          grid := fun _ _ => 1, grid_offset := { y := 3, x := 4 },
          main_ant := { pos := { y := -1, x := 7 }, dir := { y := -1, x := 0 },
                        screen_pos := { y := 5, x := 6 } },
          delay := 1 } Key.ERR = some s1 ∧
      s1.state = game_state.GAME_OVER ∧ s1.grid = (fun _ _ => 1) ∧
      s1.main_ant.pos = { y := -1, x := 7 } ∧ s1.main_ant.dir = { y := -1, x := 0 } ∧
      s1.step_count = 9 ∧
      ∀ pattern2 : List Char, loop_body 'L' pattern2
        { state := game_state.GAME_OVER, row := 24, col := 80, step_count := 9,
          grid := fun _ _ => 1, grid_offset := { y := 3, x := 4 },
          main_ant := { pos := { y := -1, x := 7 }, dir := { y := -1, x := 0 },
                        screen_pos := { y := 5, x := 6 } },
          delay := 1 } Key.ERR = some s1 :=
  game_over_absorbing 'L' "RL".toList
    { state := game_state.GAME_OVER, row := 24, col := 80, step_count := 9,
      grid := fun _ _ => 1, grid_offset := { y := 3, x := 4 },
      main_ant := { pos := { y := -1, x := 7 }, dir := { y := -1, x := 0 },
                    screen_pos := { y := 5, x := 6 } },
      delay := 1 } Key.ERR rfl (by decide)

/-- Ticks received in state `PAUSED` are passed over by the main loop. -/
theorem main_loop_paused_ticks (dir : Char) (pattern : List Char) (s : Session)
    (hst : s.state = game_state.PAUSED) (rest : List Key) :
    ∀ n : Nat, main_loop dir pattern s (List.replicate n Key.ERR ++ rest)
      = main_loop dir pattern s rest := by
  intro n
  induction n with
  | zero => rfl
  | succ n ih =>
    have hq : Key.ERR ≠ Key.chr 'q' := by decide
    rw [List.replicate_succ, List.cons_append]
    conv_lhs => unfold main_loop
    simp only [hq, if_false, loop_body_paused dir pattern s Key.ERR hst (Or.inl rfl)]
    exact ih

/-- C15. Pause freezes the simulation.  From a session in state `RUNNING`, the main
loop on the key `p` followed by any number `n` of ticks is defined and ends in the
same session with state `PAUSED`: no step was made, the grid, the ant and
`step_count` are unchanged.  A second key `p` after those ticks ends in the session
the run started from, in state `RUNNING` with the same grid, ant and `step_count`. -/
theorem pause_freezes (dir : Char) (pattern : List Char) (s : Session) (n : Nat)
    (hst : s.state = game_state.RUNNING) :
    main_loop dir pattern s (Key.chr 'p' :: List.replicate n Key.ERR)
      = some { s with state := game_state.PAUSED } ∧
    main_loop dir pattern s (Key.chr 'p' :: (List.replicate n Key.ERR ++ [Key.chr 'p']))
      = some s ∧
    ∀ s1 s2,
      main_loop dir pattern s (Key.chr 'p' :: List.replicate n Key.ERR) = some s1 →
      main_loop dir pattern s
        (Key.chr 'p' :: (List.replicate n Key.ERR ++ [Key.chr 'p'])) = some s2 →
      (s1.state = game_state.PAUSED ∧ s1.grid = s.grid ∧
        s1.main_ant.pos = s.main_ant.pos ∧ s1.main_ant.dir = s.main_ant.dir ∧
        s1.step_count = s.step_count) ∧
      (s2.state = game_state.RUNNING ∧ s2.grid = s.grid ∧
        s2.main_ant.pos = s.main_ant.pos ∧ s2.main_ant.dir = s.main_ant.dir ∧
        s2.step_count = s.step_count) := by
  have hq : Key.chr 'p' ≠ Key.chr 'q' := by decide
  have hp1 := (loop_body_pause dir pattern s).1 hst
  have hpaused : ({ s with state := game_state.PAUSED } : Session).state
      = game_state.PAUSED := rfl
  have hp2 := (loop_body_pause dir pattern { s with state := game_state.PAUSED }).2 hpaused
  have hback : ({ ({ s with state := game_state.PAUSED } : Session) with
      state := game_state.RUNNING } : Session) = s := by
    obtain ⟨st, r, c, sc, g, off, a, d⟩ := s
    simp only at hst
    subst hst
    rfl
  have h1 : main_loop dir pattern s (Key.chr 'p' :: List.replicate n Key.ERR)
      = some { s with state := game_state.PAUSED } := by
    conv_lhs => unfold main_loop
    simp only [hq, if_false, hp1]
    have := main_loop_paused_ticks dir pattern _ hpaused [] n
    rw [List.append_nil] at this
    rw [this]
    rfl
  have h2 : main_loop dir pattern s
      (Key.chr 'p' :: (List.replicate n Key.ERR ++ [Key.chr 'p'])) = some s := by
    conv_lhs => unfold main_loop
    simp only [hq, if_false, hp1]
    rw [main_loop_paused_ticks dir pattern _ hpaused [Key.chr 'p'] n]
    unfold main_loop
    simp only [hq, if_false, hp2, hback]
    rfl
  refine ⟨h1, h2, ?_⟩
  intro s1 s2 e1 e2
  rw [h1] at e1
  rw [h2] at e2
  simp only [Option.some.injEq] at e1 e2
  subst e1 e2
  exact ⟨⟨rfl, rfl, rfl, rfl, rfl⟩, ⟨hst, rfl, rfl, rfl, rfl⟩⟩

theorem pause_freezes_witness :
    main_loop 'L' "RL".toList
        { state := game_state.RUNNING, row := 24, col := 80, step_count := 3,
          grid := fun _ _ => 0, grid_offset := { y := 0, x := 0 },
          main_ant := { pos := { y := 100, x := 100 }, dir := { y := 0, x := -1 },
                        screen_pos := { y := 0, x := 0 } },
          delay := 5 }
        (Key.chr 'p' :: (List.replicate 4 Key.ERR ++ [Key.chr 'p']))
      = some
        { state := game_state.RUNNING, row := 24, col := 80, step_count := 3,
          grid := fun _ _ => 0, grid_offset := { y := 0, x := 0 },
          main_ant := { pos := { y := 100, x := 100 }, dir := { y := 0, x := -1 },
                        screen_pos := { y := 0, x := 0 } },
          delay := 5 } :=
  (pause_freezes 'L' "RL".toList
    { state := game_state.RUNNING, row := 24, col := 80, step_count := 3,
      grid := fun _ _ => 0, grid_offset := { y := 0, x := 0 },
      main_ant := { pos := { y := 100, x := 100 }, dir := { y := 0, x := -1 },
                    screen_pos := { y := 0, x := 0 } },
      delay := 5 } 4 rfl).2.1

/-- C16. In every state, the iteration on a pan key (left, up, right, down), on the
centre-grid key `c` or on the centre-ant key `a` is defined and leaves the grid, the
position and the direction of the ant, `step_count`, the run state, the terminal size
and the delay unchanged.  Of the session only the grid offset is assigned, to the
value `update_offset` or `center_ant` returns, and the redraw then records the screen
position of the ant; the result is the same for every pattern, the step of the
automaton not being run. -/
theorem pan_and_centre_frame (dir : Char) (pattern : List Char) (s : Session) (ch : Key)
    (hch : ch = Key.KEY_LEFT ∨ ch = Key.KEY_UP ∨ ch = Key.KEY_RIGHT ∨ ch = Key.KEY_DOWN ∨
      ch = Key.chr 'c' ∨ ch = Key.chr 'a') :
    ∃ s1, loop_body dir pattern s ch = some s1 ∧
      s1.grid = s.grid ∧ s1.main_ant.pos = s.main_ant.pos ∧
      s1.main_ant.dir = s.main_ant.dir ∧ s1.step_count = s.step_count ∧
      s1.state = s.state ∧ s1.row = s.row ∧ s1.col = s.col ∧ s1.delay = s.delay ∧
      s1 = refresh { s with grid_offset := s1.grid_offset } ∧
      (ch = Key.KEY_LEFT → s1.grid_offset = update_offset s.grid_offset .LEFT) ∧
      (ch = Key.KEY_UP → s1.grid_offset = update_offset s.grid_offset .UP) ∧
      (ch = Key.KEY_RIGHT → s1.grid_offset = update_offset s.grid_offset .RIGHT) ∧
      (ch = Key.KEY_DOWN → s1.grid_offset = update_offset s.grid_offset .DOWN) ∧
      (ch = Key.chr 'c' → s1.grid_offset = update_offset s.grid_offset .ZERO) ∧
      (ch = Key.chr 'a' →
        s1.grid_offset = center_ant s.main_ant s.row s.col s.grid_offset) ∧
      ∀ pattern2 : List Char, loop_body dir pattern2 s ch = some s1 := by
  rcases hch with rfl | rfl | rfl | rfl | rfl | rfl
  · exact ⟨_, rfl, rfl, rfl, rfl, rfl, rfl, rfl, rfl, rfl, rfl, fun _ => rfl,
      fun h => absurd h (by decide), fun h => absurd h (by decide),
      fun h => absurd h (by decide), fun h => absurd h (by decide),
      fun h => absurd h (by decide), fun _ => rfl⟩
  · exact ⟨_, rfl, rfl, rfl, rfl, rfl, rfl, rfl, rfl, rfl, rfl,
      fun h => absurd h (by decide), fun _ => rfl, fun h => absurd h (by decide),
      fun h => absurd h (by decide), fun h => absurd h (by decide),
      fun h => absurd h (by decide), fun _ => rfl⟩
  · exact ⟨_, rfl, rfl, rfl, rfl, rfl, rfl, rfl, rfl, rfl, rfl,
      fun h => absurd h (by decide), fun h => absurd h (by decide), fun _ => rfl,
      fun h => absurd h (by decide), fun h => absurd h (by decide),
      fun h => absurd h (by decide), fun _ => rfl⟩
  · exact ⟨_, rfl, rfl, rfl, rfl, rfl, rfl, rfl, rfl, rfl, rfl,
      fun h => absurd h (by decide), fun h => absurd h (by decide),
      fun h => absurd h (by decide), fun _ => rfl, fun h => absurd h (by decide),
      fun h => absurd h (by decide), fun _ => rfl⟩
  · have hb : ∀ q : List Char, loop_body dir q s (Key.chr 'c')
        = some (refresh { s with grid_offset := update_offset s.grid_offset .ZERO }) := by
      intro q
      simp [loop_body, handle_key, check_flags]
    exact ⟨_, hb pattern, rfl, rfl, rfl, rfl, rfl, rfl, rfl, rfl, rfl,
      fun h => absurd h (by decide), fun h => absurd h (by decide),
      fun h => absurd h (by decide), fun h => absurd h (by decide), fun _ => rfl,
      fun h => absurd h (by decide), hb⟩
  · have hb : ∀ q : List Char, loop_body dir q s (Key.chr 'a')
        = some (refresh
            { s with grid_offset := center_ant s.main_ant s.row s.col s.grid_offset }) := by
      intro q
      simp [loop_body, handle_key, check_flags]
    exact ⟨_, hb pattern, rfl, rfl, rfl, rfl, rfl, rfl, rfl, rfl, rfl,
      fun h => absurd h (by decide), fun h => absurd h (by decide),
      fun h => absurd h (by decide), fun h => absurd h (by decide),
      fun h => absurd h (by decide), fun _ => rfl, hb⟩

theorem pan_and_centre_frame_witness :
    ∃ s1, loop_body 'L' "RL".toList
        { state := game_state.GAME_OVER, row := 24, col := 80, step_count := 9,
          grid := fun _ _ => 1, grid_offset := { y := 3, x := 4 },
          main_ant := { pos := { y := -1, x := 7 }, dir := { y := -1, x := 0 },
                        screen_pos := { y := 5, x := 6 } },
          delay := 1 } Key.KEY_LEFT = some s1 ∧
      s1.grid = (fun _ _ => 1) ∧ s1.main_ant.pos = { y := -1, x := 7 } ∧
      s1.main_ant.dir = { y := -1, x := 0 } ∧ s1.step_count = 9 ∧
      s1.state = game_state.GAME_OVER :=
  match pan_and_centre_frame 'L' "RL".toList
    { state := game_state.GAME_OVER, row := 24, col := 80, step_count := 9,
      grid := fun _ _ => 1, grid_offset := { y := 3, x := 4 },
      main_ant := { pos := { y := -1, x := 7 }, dir := { y := -1, x := 0 },
                    screen_pos := { y := 5, x := 6 } },
      delay := 1 } Key.KEY_LEFT (Or.inl rfl) with
  | ⟨s1, h1, h2, h3, h4, h5, h6, _⟩ => ⟨s1, h1, h2, h3, h4, h5, h6⟩

/-- C17. For a valid pattern, every run of the main loop from the session `main`
builds, on any sequence of keys and ticks, is defined, and in the session it ends in:
if the state is `RUNNING` or `PAUSED` the position of the ant satisfies
`0 <= row < 201` and `0 <= col < 201`; in state `RUNNING` the tile read and the tile
write of `update_grid` are inside the array, so `update_grid` returns; and the next
iteration is defined for every key, the access outside the array never being
reached. -/
theorem ant_inside_while_running (dir : Char) (pattern : List Char) (row col : Int)
    (ant0 : ant) (keys : List Key) (hp : valid_pattern pattern) :
    ∃ s, main_loop dir pattern (init_session dir row col ant0) keys = some s ∧
      ((s.state = game_state.RUNNING ∨ s.state = game_state.PAUSED) →
        0 ≤ s.main_ant.pos.y ∧ s.main_ant.pos.y < 201 ∧
        0 ≤ s.main_ant.pos.x ∧ s.main_ant.pos.x < 201) ∧
      (s.state = game_state.RUNNING →
        ∃ (tile : Int) (grid1 : Grid) (ant1 : ant),
          grid_read s.grid s.main_ant.pos.y s.main_ant.pos.x = some tile ∧
          change_tile s.grid s.main_ant.pos (strlen pattern) = some grid1 ∧
          update_grid s.grid s.main_ant pattern = some (grid1, ant1)) ∧
      (∀ ch : Key, ∃ s1, loop_body dir pattern s ch = some s1) := by
  have hlen : 0 < pattern.length := by have := hp.1; omega
  obtain ⟨s, hs, hinv⟩ := reachable_inv dir pattern row col ant0 keys hlen
  refine ⟨s, hs, ?_, ?_, ?_⟩
  · intro hst
    have hne : s.state ≠ game_state.GAME_OVER := by
      rcases hst with h | h <;> rw [h] <;> decide
    exact hinv.2.2.1 hne
  · intro hst
    have hin : in_grid s.main_ant.pos.y s.main_ant.pos.x :=
      hinv.2.2.1 (by rw [hst]; decide)
    have hread : grid_read s.grid s.main_ant.pos.y s.main_ant.pos.x
        = some (s.grid s.main_ant.pos.y s.main_ant.pos.x) := by
      simp only [grid_read, hin, if_true]
    exact ⟨_, _, _, hread, change_tile_eq s.grid s.main_ant.pos _ hin,
      update_grid_eq s.grid s.main_ant pattern hin⟩
  · intro ch
    obtain ⟨s1, h1, _⟩ := loop_body_inv dir pattern s ch hlen hinv
    exact ⟨s1, h1⟩

theorem ant_inside_while_running_witness :
    ∃ s, main_loop 'R' "LRRL".toList
        (init_session 'R' 24 80
          { pos := { y := 0, x := 0 }, dir := { y := 0, x := 0 },
            screen_pos := { y := 0, x := 0 } })
        [Key.ERR, Key.ERR, Key.chr 'p', Key.ERR] = some s ∧
      ((s.state = game_state.RUNNING ∨ s.state = game_state.PAUSED) →
        0 ≤ s.main_ant.pos.y ∧ s.main_ant.pos.y < 201 ∧
        0 ≤ s.main_ant.pos.x ∧ s.main_ant.pos.x < 201) ∧
      (s.state = game_state.RUNNING →
        ∃ (tile : Int) (grid1 : Grid) (ant1 : ant),
          grid_read s.grid s.main_ant.pos.y s.main_ant.pos.x = some tile ∧
          change_tile s.grid s.main_ant.pos (strlen "LRRL".toList) = some grid1 ∧
          update_grid s.grid s.main_ant "LRRL".toList = some (grid1, ant1)) ∧
      (∀ ch : Key, ∃ s1, loop_body 'R' "LRRL".toList s ch = some s1) :=
  ant_inside_while_running 'R' "LRRL".toList 24 80
    { pos := { y := 0, x := 0 }, dir := { y := 0, x := 0 },
      screen_pos := { y := 0, x := 0 } }
    [Key.ERR, Key.ERR, Key.chr 'p', Key.ERR]
    (by unfold valid_pattern pattern_letters; decide)

/-! ## Centring the ant -/

theorem tmod_two_eq_zero (x : Int) : Int.tmod x 2 = 0 ↔ x % 2 = 0 := by
  constructor
  · intro h
    exact Int.emod_eq_zero_of_dvd (Int.dvd_of_tmod_eq_zero h)
  · intro h
    exact Int.tmod_eq_zero_of_dvd (Int.dvd_of_emod_eq_zero h)

/-- The column `render_ant` draws at: the computed column, moved one to the right
when it is odd. -/
theorem render_ant_screen (a : ant) (row col : Int) (off : point) :
    (render_ant a row col off).screen_pos.y
      = Int.tdiv (row - 201) 2 + off.y + a.pos.y ∧
    (render_ant a row col off).screen_pos.x
      = (if (Int.tdiv (col - 402) 2 + off.x + a.pos.x * 2) % 2 = 0
          then Int.tdiv (col - 402) 2 + off.x + a.pos.x * 2
          else Int.tdiv (col - 402) 2 + off.x + a.pos.x * 2 + 1) ∧
    (render_ant a row col off).pos = a.pos ∧ (render_ant a row col off).dir = a.dir := by
  refine ⟨rfl, ?_, rfl, rfl⟩
  show (if Int.tmod (Int.tdiv (col - 201 * 2) 2 + off.x + a.pos.x * 2) 2 ≠ 0
      then Int.tdiv (col - 201 * 2) 2 + off.x + a.pos.x * 2 + 1
      else Int.tdiv (col - 201 * 2) 2 + off.x + a.pos.x * 2) = _
  have e : (201 : Int) * 2 = 402 := by decide
  rw [e]
  by_cases h : (Int.tdiv (col - 402) 2 + off.x + a.pos.x * 2) % 2 = 0
  · have h2 := (tmod_two_eq_zero _).2 h
    rw [if_neg (not_not.2 h2), if_pos h]
  · have h2 : Int.tmod (Int.tdiv (col - 402) 2 + off.x + a.pos.x * 2) 2 ≠ 0 :=
      fun k => h ((tmod_two_eq_zero _).1 k)
    rw [if_pos h2, if_neg h]

/-- Where the ant is drawn after `center_ant`, when its `screen_pos` is the one
`render_ant` stored for the same terminal size, grid offset and grid position. -/
theorem center_then_render (a : ant) (row col : Int) (off : point)
    (hsp : a.screen_pos = (render_ant a row col off).screen_pos) :
    (render_ant a row col (center_ant a row col off)).screen_pos.y = Int.tdiv row 2 ∧
    (render_ant a row col (center_ant a row col off)).screen_pos.x % 2 = 0 ∧
    Int.tdiv col 2 - 1 ≤ (render_ant a row col (center_ant a row col off)).screen_pos.x ∧
    (render_ant a row col (center_ant a row col off)).screen_pos.x ≤ Int.tdiv col 2 + 1 ∧
    (Int.tdiv col 2 % 2 = 0 →
      (render_ant a row col (center_ant a row col off)).screen_pos.x = Int.tdiv col 2) ∧
    (Int.tdiv col 2 % 2 ≠ 0 →
      (render_ant a row col (center_ant a row col off)).screen_pos.x ≠ Int.tdiv col 2) := by
  obtain ⟨r1, r2, _, _⟩ := render_ant_screen a row col off
  obtain ⟨q1, q2, _, _⟩ := render_ant_screen a row col (center_ant a row col off)
  have hy : a.screen_pos.y = Int.tdiv (row - 201) 2 + off.y + a.pos.y := by rw [hsp, r1]
  have hx : a.screen_pos.x
      = (if (Int.tdiv (col - 402) 2 + off.x + a.pos.x * 2) % 2 = 0
          then Int.tdiv (col - 402) 2 + off.x + a.pos.x * 2
          else Int.tdiv (col - 402) 2 + off.x + a.pos.x * 2 + 1) := by rw [hsp, r2]
  have cy : (center_ant a row col off).y = off.y + (Int.tdiv row 2 - a.screen_pos.y) := rfl
  have cx : (center_ant a row col off).x = off.x + (Int.tdiv col 2 - a.screen_pos.x) := rfl
  rw [q1, q2, cy, cx]
  generalize Int.tdiv row 2 = R
  generalize Int.tdiv col 2 = C
  generalize Int.tdiv (row - 201) 2 = SY at hy ⊢
  generalize Int.tdiv (col - 402) 2 = SX at hx ⊢
  generalize a.screen_pos.x = px at hx ⊢
  generalize a.screen_pos.y = py at hy ⊢
  refine ⟨by omega, ?_, ?_, ?_, ?_, ?_⟩ <;> split_ifs at hx ⊢ <;> omega

/-- C18, as it is written, fails: on a terminal of 24 rows and 82 columns, with grid
offset `(0,0)` and the ant at `(100,100)` drawn by `render_ant` at screen cell
`(12,40)`, `center_ant` followed by `render_ant` draws the ant at `(12,42)`, while
`(row/2, col/2)` is `(12,41)`. -/
theorem center_ant_misses_odd_column :
    ({ y := 12, x := 40 } : point)
      = (render_ant
          { pos := { y := 100, x := 100 }, dir := { y := 0, x := -1 },
            screen_pos := { y := 12, x := 40 } } 24 82 { y := 0, x := 0 }).screen_pos ∧
    (render_ant
        { pos := { y := 100, x := 100 }, dir := { y := 0, x := -1 },
          screen_pos := { y := 12, x := 40 } } 24 82
        (center_ant
          { pos := { y := 100, x := 100 }, dir := { y := 0, x := -1 },
            screen_pos := { y := 12, x := 40 } } 24 82 { y := 0, x := 0 })).screen_pos
      = { y := 12, x := 42 } ∧
    (render_ant
        { pos := { y := 100, x := 100 }, dir := { y := 0, x := -1 },
          screen_pos := { y := 12, x := 40 } } 24 82
        (center_ant
          { pos := { y := 100, x := 100 }, dir := { y := 0, x := -1 },
            screen_pos := { y := 12, x := 40 } } 24 82 { y := 0, x := 0 })).screen_pos
      ≠ { y := Int.tdiv 24 2, x := Int.tdiv 82 2 } := by
  decide

/-- C18, amended.  For every terminal size, grid offset and ant, if the `screen_pos`
of the ant is the one `render_ant` stored for that size, offset and grid position,
then after `center_ant` a new `render_ant` with the same size and ant draws the ant
at screen row `row/2` and at an even screen column within one of `col/2`: at `col/2`
itself exactly when `col/2` is even. -/
theorem center_ant_centres_to_even_column (a : ant) (row col : Int) (off : point)
    (hsp : a.screen_pos = (render_ant a row col off).screen_pos) :
    (render_ant a row col (center_ant a row col off)).screen_pos.y = Int.tdiv row 2 ∧
    (render_ant a row col (center_ant a row col off)).screen_pos.x % 2 = 0 ∧
    Int.tdiv col 2 - 1 ≤ (render_ant a row col (center_ant a row col off)).screen_pos.x ∧
    (render_ant a row col (center_ant a row col off)).screen_pos.x ≤ Int.tdiv col 2 + 1 ∧
    ((render_ant a row col (center_ant a row col off)).screen_pos.x = Int.tdiv col 2
      ↔ Int.tdiv col 2 % 2 = 0) := by
  obtain ⟨h1, h2, h3, h4, h5, h6⟩ := center_then_render a row col off hsp
  refine ⟨h1, h2, h3, h4, ?_, h5⟩
  intro heq
  by_contra hodd
  exact h6 hodd heq

theorem center_ant_centres_to_even_column_witness :
    (render_ant
        { pos := { y := 100, x := 100 }, dir := { y := 0, x := -1 },
          screen_pos := { y := 12, x := 40 } } 24 80
        (center_ant
          { pos := { y := 100, x := 100 }, dir := { y := 0, x := -1 },
            screen_pos := { y := 12, x := 40 } } 24 80 { y := 0, x := 0 })).screen_pos.y
      = Int.tdiv 24 2 ∧
    ((render_ant
        { pos := { y := 100, x := 100 }, dir := { y := 0, x := -1 },
          screen_pos := { y := 12, x := 40 } } 24 80
        (center_ant
          { pos := { y := 100, x := 100 }, dir := { y := 0, x := -1 },
            screen_pos := { y := 12, x := 40 } } 24 80 { y := 0, x := 0 })).screen_pos.x
      = Int.tdiv 80 2 ↔ Int.tdiv 80 2 % 2 = 0) :=
  match center_ant_centres_to_even_column
    { pos := { y := 100, x := 100 }, dir := { y := 0, x := -1 },
      screen_pos := { y := 12, x := 40 } } 24 80 { y := 0, x := 0 } (by decide) with
  | ⟨h1, _, _, _, h5⟩ => ⟨h1, h5⟩

/-! ## The first hundred ticks -/

/-- One step of the automaton by an ant with a heading moves it to a neighbouring
cell. -/
theorem update_grid_neighbour (grid grid1 : Grid) (a a1 : ant) (pattern : List Char)
    (hd : is_heading a.dir) (hin : in_grid a.pos.y a.pos.x)
    (h : update_grid grid a pattern = some (grid1, a1)) :
    a.pos.y - 1 ≤ a1.pos.y ∧ a1.pos.y ≤ a.pos.y + 1 ∧
    a.pos.x - 1 ≤ a1.pos.x ∧ a1.pos.x ≤ a.pos.x + 1 := by
  rw [update_grid_eq grid a pattern hin] at h
  simp only [Option.some.injEq, Prod.mk.injEq] at h
  obtain ⟨_, h2⟩ := h
  subst h2
  have hh := rotate_ant_heading a (grid a.pos.y a.pos.x) pattern hd
  unfold is_heading at hh
  simp only [add_points]
  rcases hh with e | e | e | e <;> rw [e] <;> simp only <;> omega

/-- From a running session that satisfies the invariant, has made `k` steps and has
its ant within `k` cells of the centre on both axes, `m` further ticks with
`k + m <= 100` keep the session running. -/
theorem ticks_near_centre (dir : Char) (pattern : List Char)
    (hlen : 0 < pattern.length) (hdir : dir ∈ heading_tokens) :
    ∀ (m k : Nat) (s : Session), session_inv dir pattern.length s →
      s.state = game_state.RUNNING → s.step_count = k → k + m ≤ 100 →
      (100 - (k : Int) ≤ s.main_ant.pos.y ∧ s.main_ant.pos.y ≤ 100 + (k : Int) ∧
        100 - (k : Int) ≤ s.main_ant.pos.x ∧ s.main_ant.pos.x ≤ 100 + (k : Int)) →
      ∃ s1, main_loop dir pattern s (List.replicate m Key.ERR) = some s1 ∧
        s1.state = game_state.RUNNING ∧ s1.step_count = k + m ∧
        100 - ((k + m : Nat) : Int) ≤ s1.main_ant.pos.y ∧
        s1.main_ant.pos.y ≤ 100 + ((k + m : Nat) : Int) ∧
        100 - ((k + m : Nat) : Int) ≤ s1.main_ant.pos.x ∧
        s1.main_ant.pos.x ≤ 100 + ((k + m : Nat) : Int) := by
  intro m
  induction m with
  | zero =>
    intro k s _ hst hc _ hb
    exact ⟨s, rfl, hst, hc, hb⟩
  | succ m ih =>
    intro k s hinv hst hc hkm hb
    have hin : in_grid s.main_ant.pos.y s.main_ant.pos.x := hinv.2.2.1 (by rw [hst]; decide)
    obtain ⟨grid1, ant1, hu, hbody⟩ := loop_body_tick dir pattern s hst hin
    obtain ⟨n1, n2, n3, n4⟩ :=
      update_grid_neighbour s.grid grid1 s.main_ant ant1 pattern (hinv.1 hdir) hin hu
    have hnew : in_grid ant1.pos.y ant1.pos.x := by
      unfold in_grid GRID_SIZE_Y GRID_SIZE_X
      omega
    rw [if_pos hnew] at hbody
    obtain ⟨s1, hs1, hinv1⟩ := loop_body_inv dir pattern s Key.ERR hlen hinv
    rw [hbody] at hs1
    simp only [Option.some.injEq] at hs1
    have hlt : s.step_count < UINT_MAX := by unfold UINT_MAX; omega
    have hcount : s1.step_count = k + 1 := by
      rw [← hs1]
      show (if s.step_count < UINT_MAX then (s.step_count + 1) % 2 ^ 32
        else s.step_count) = k + 1
      rw [if_pos hlt]
      omega
    have hpos : s1.main_ant.pos = ant1.pos := by rw [← hs1]; rfl
    have hst1 : s1.state = game_state.RUNNING := by rw [← hs1]; exact hst
    have hq : Key.ERR ≠ Key.chr 'q' := by decide
    obtain ⟨s2, hs2, r1, r2, r3⟩ := ih (k + 1) s1 hinv1 hst1 hcount (by omega)
      (by rw [hpos]; push_cast; omega)
    refine ⟨s2, ?_, r1, by omega, ?_⟩
    · rw [List.replicate_succ]
      unfold main_loop
      simp only [hq, if_false, hbody]
      rw [hs1]
      exact hs2
    · have e : k + 1 + m = k + (m + 1) := by omega
      rw [e] at r3
      exact r3

/-- C19. For every valid pattern and every heading token, the session `main` builds
cannot reach `GAME_OVER` during its first 100 ticks: for `n <= 100` the main loop on
`n` consecutive ticks is defined and ends in state `RUNNING` with `step_count = n`
and with the row and the column of the ant each within `n` of 100. -/
theorem first_hundred_ticks_run (dir : Char) (pattern : List Char) (row col : Int)
    (ant0 : ant) (n : Nat)
    (hdir : dir ∈ heading_tokens) (hp : valid_pattern pattern) (hn : n ≤ 100) :
    ∃ s, main_loop dir pattern (init_session dir row col ant0)
        (List.replicate n Key.ERR) = some s ∧
      s.state = game_state.RUNNING ∧ s.step_count = n ∧
      100 - (n : Int) ≤ s.main_ant.pos.y ∧ s.main_ant.pos.y ≤ 100 + (n : Int) ∧
      100 - (n : Int) ≤ s.main_ant.pos.x ∧ s.main_ant.pos.x ≤ 100 + (n : Int) := by
  have hlen : 0 < pattern.length := by have := hp.1; omega
  have hL : (0 : Int) < (pattern.length : Int) := by omega
  have hinv := init_session_inv pattern.length dir row col ant0 hL
  obtain ⟨f1, f2⟩ := init_session_fields dir row col ant0
  have hpos := init_session_pos dir row col ant0
  obtain ⟨s, hs, r1, r2, r3⟩ := ticks_near_centre dir pattern hlen hdir n 0
    (init_session dir row col ant0) hinv f1 f2 (by omega) (by rw [hpos]; simp)
  rw [Nat.zero_add] at r2 r3
  exact ⟨s, hs, r1, r2, r3⟩

theorem first_hundred_ticks_run_witness :
    ∃ s, main_loop 'U' "RL".toList
        (init_session 'U' 24 80
          { pos := { y := 0, x := 0 }, dir := { y := 0, x := 0 },
            screen_pos := { y := 0, x := 0 } })
        (List.replicate 100 Key.ERR) = some s ∧
      s.state = game_state.RUNNING ∧ s.step_count = 100 ∧
      100 - ((100 : Nat) : Int) ≤ s.main_ant.pos.y ∧
      s.main_ant.pos.y ≤ 100 + ((100 : Nat) : Int) ∧
      100 - ((100 : Nat) : Int) ≤ s.main_ant.pos.x ∧
      s.main_ant.pos.x ≤ 100 + ((100 : Nat) : Int) :=
  first_hundred_ticks_run 'U' "RL".toList 24 80
    { pos := { y := 0, x := 0 }, dir := { y := 0, x := 0 },
      screen_pos := { y := 0, x := 0 } } 100
    (by decide) (by unfold valid_pattern pattern_letters; decide) (by decide)

/-! ## Reversibility of the step -/

/-- Each turn of the specification is an injective map of direction vectors. -/
theorem spec_rotate_injective (t : Turn) (d e : point)
    (h : spec_rotate d t = spec_rotate e t) : d = e := by
  obtain ⟨dy, dx⟩ := d
  obtain ⟨ey, ex⟩ := e
  cases t <;> simp only [spec_rotate, point.mk.injEq] at h ⊢ <;> omega

/-- On a colour below the length of a valid pattern, `rotate_ant` is one turn of the
specification, the same for every ant. -/
theorem rotate_ant_valid (pattern : List Char) (c : Int) (hp : valid_pattern pattern)
    (h0 : 0 ≤ c) (hlt : c < (pattern.length : Int)) :
    ∃ t : Turn, ∀ a : ant, rotate_ant a c pattern = { a with dir := spec_rotate a.dir t } := by
  have hk : c.toNat < pattern.length := by omega
  obtain ⟨ch, t, hch, _, ht⟩ := pattern_lookup pattern hp _ hk
  have hcast : ((c.toNat : Nat) : Int) = c := Int.toNat_of_nonneg h0
  refine ⟨t, fun a => ?_⟩
  have := rotate_ant_at a pattern _ ch hch
  rw [hcast] at this
  rw [this, rotate_switch_spec a ch t ht]

/-- Advancing a colour below `L` is injective. -/
theorem succ_mod_injective (c1 c2 L : Int) (h1 : 0 ≤ c1 ∧ c1 < L) (h2 : 0 ≤ c2 ∧ c2 < L)
    (h : Int.tmod (c1 + 1) L = Int.tmod (c2 + 1) L) : c1 = c2 := by
  have hL : 0 < L := by omega
  rw [(tmod_succ_below c1 L h1.1 hL).2.2, (tmod_succ_below c2 L h2.1 hL).2.2] at h
  by_cases e1 : c1 + 1 = L
  · by_cases e2 : c2 + 1 = L
    · omega
    · rw [e1, Int.emod_self, Int.emod_eq_of_lt (by omega) (by omega)] at h
      omega
  · by_cases e2 : c2 + 1 = L
    · rw [e2, Int.emod_self, Int.emod_eq_of_lt (by omega) (by omega)] at h
      omega
    · rw [Int.emod_eq_of_lt (by omega) (by omega),
        Int.emod_eq_of_lt (by omega) (by omega)] at h
      omega

/-- C20. The step is reversible.  For a valid pattern of length `L` and two states
(a grid with all cells in `[0, L)`, an ant inside the grid, any direction),
`update_grid` returns on both, and if the two results have the same grid, the same
ant position and the same ant direction, then the two states had the same grid, the
same ant position and the same ant direction. -/
theorem update_grid_injective (pattern : List Char) (g1 g2 : Grid) (a1 a2 : ant)
    (hp : valid_pattern pattern)
    (hg1 : grid_below g1 pattern.length) (hg2 : grid_below g2 pattern.length)
    (hin1 : in_grid a1.pos.y a1.pos.x) (hin2 : in_grid a2.pos.y a2.pos.x) :
    ∃ (r1 r2 : Grid × ant),
      update_grid g1 a1 pattern = some r1 ∧ update_grid g2 a2 pattern = some r2 ∧
      (r1.1 = r2.1 → r1.2.pos = r2.2.pos → r1.2.dir = r2.2.dir →
        g1 = g2 ∧ a1.pos = a2.pos ∧ a1.dir = a2.dir) := by
  refine ⟨_, _, update_grid_eq g1 a1 pattern hin1, update_grid_eq g2 a2 pattern hin2, ?_⟩
  intro hgrid hpos hdir
  simp only at hgrid hpos hdir
  have hp12 : a1.pos = a2.pos := by
    have hy := congrArg point.y hpos
    have hx := congrArg point.x hpos
    simp only [add_points, hdir] at hy hx
    have hext : ∀ p q : point, p.y = q.y → p.x = q.x → p = q := by
      intro p q e1 e2
      cases p; cases q
      simp only at e1 e2
      rw [e1, e2]
    exact hext _ _ (by omega) (by omega)
  have hc1 := hg1 _ _ hin1
  have hc2 := hg2 _ _ hin2
  have hcol : g1 a1.pos.y a1.pos.x = g2 a2.pos.y a2.pos.x := by
    have h := congrFun (congrFun hgrid a1.pos.y) a1.pos.x
    simp only [grid_set, strlen, ← hp12, and_self, if_true] at h
    rw [← hp12] at hc2 ⊢
    exact succ_mod_injective _ _ _ hc1 hc2 h
  have hgg : g1 = g2 := by
    funext y x
    by_cases hyx : y = a1.pos.y ∧ x = a1.pos.x
    · rw [hyx.1, hyx.2, hcol, hp12]
    · have h := congrFun (congrFun hgrid y) x
      simp only [grid_set, ← hp12, hyx, if_false] at h
      exact h
  refine ⟨hgg, hp12, ?_⟩
  obtain ⟨t, ht⟩ := rotate_ant_valid pattern (g1 a1.pos.y a1.pos.x) hp hc1.1 hc1.2
  rw [← hcol, ht a1, ht a2] at hdir
  exact spec_rotate_injective t _ _ hdir

theorem update_grid_injective_witness :
    ∃ (r1 r2 : Grid × ant),
      update_grid (fun _ _ => 0)
        { pos := { y := 100, x := 100 }, dir := { y := 0, x := -1 },
          screen_pos := { y := 0, x := 0 } } "RL".toList = some r1 ∧
      update_grid (fun _ _ => 0)
        { pos := { y := 100, x := 100 }, dir := { y := 0, x := -1 },
          screen_pos := { y := 4, x := 4 } } "RL".toList = some r2 ∧
      (r1.1 = r2.1 → r1.2.pos = r2.2.pos → r1.2.dir = r2.2.dir →
        (fun _ _ => 0 : Grid) = (fun _ _ => 0) ∧
        ({ y := 100, x := 100 } : point) = { y := 100, x := 100 } ∧
        ({ y := 0, x := -1 } : point) = { y := 0, x := -1 }) :=
  update_grid_injective "RL".toList (fun _ _ => 0) (fun _ _ => 0)
    { pos := { y := 100, x := 100 }, dir := { y := 0, x := -1 },
      screen_pos := { y := 0, x := 0 } }
    { pos := { y := 100, x := 100 }, dir := { y := 0, x := -1 },
      screen_pos := { y := 4, x := 4 } }
    (by unfold valid_pattern pattern_letters; decide)
    (by
      intro y x _
      show (0 : Int) ≤ 0 ∧ (0 : Int) < ((2 : Nat) : Int)
      decide)
    (by
      intro y x _
      show (0 : Int) ≤ 0 ∧ (0 : Int) < ((2 : Nat) : Int)
      decide)
    (by decide) (by decide)

/-! ## Colour indices outside the pattern -/

/-- C21. The function `rotate_ant`, called with a tile value that is negative or
greater than or equal to the length of the pattern, returns the ant exactly as it
was: the loop ends without any index matching, so the direction (and every other
field) is unchanged and no error is signalled, whatever the pattern and the
direction vector are. -/
theorem rotate_ant_out_of_range (a : ant) (tile_value : Int) (pattern : List Char)
    (h : tile_value < 0 ∨ strlen pattern ≤ tile_value) :
    rotate_ant a tile_value pattern = a ∧ (rotate_ant a tile_value pattern).dir = a.dir := by
  have hmiss : rotate_ant a tile_value pattern = a := by
    unfold rotate_ant
    apply rotate_ant_from_miss
    unfold strlen at h
    rcases h with h | h
    · left; simpa using h
    · right; simpa using h
  exact ⟨hmiss, by rw [hmiss]⟩

theorem rotate_ant_out_of_range_witness :
    (rotate_ant
        { pos := { y := 100, x := 100 }, dir := { y := 0, x := -1 },
          screen_pos := { y := 0, x := 0 } } 2 "RL".toList
      = { pos := { y := 100, x := 100 }, dir := { y := 0, x := -1 },
          screen_pos := { y := 0, x := 0 } }) ∧
    (rotate_ant
        { pos := { y := 100, x := 100 }, dir := { y := 0, x := -1 },
          screen_pos := { y := 0, x := 0 } } (-1) "RL".toList
      = { pos := { y := 100, x := 100 }, dir := { y := 0, x := -1 },
          screen_pos := { y := 0, x := 0 } }) :=
  ⟨(rotate_ant_out_of_range
      { pos := { y := 100, x := 100 }, dir := { y := 0, x := -1 },
        screen_pos := { y := 0, x := 0 } } 2 "RL".toList (Or.inr (by decide))).1,
   (rotate_ant_out_of_range
      { pos := { y := 100, x := 100 }, dir := { y := 0, x := -1 },
        screen_pos := { y := 0, x := 0 } } (-1) "RL".toList (Or.inl (by decide))).1⟩

end LangtonsAnt
